import Mathlib

/-
Shallow embedding of the rhai scripting-engine core (parser, registration
facade, basic time package) from this repository, together with theorems
settling the specification claims.

Sources embedded:
  - src/src/parser.rs       (lexer-token consumer, recursive-descent parser, AST)
  - src/src/fn_register.rs  (native-function registration adapters)
  - src/src/packages/time_basic.rs (timestamp subtraction operator)
  - src/tests/constants.rs  (constant-assignment behaviour)

Parts of the crate referenced by the parser but not present under src/
(token.rs, error.rs, utils.rs, engine.rs) are modelled from the
specification; each such definition carries a doc comment starting with
"Modelled from the spec:".

Modelling conventions:
  - u64 dispatch hashes are modelled by the injective key they are computed
    from (qualifier path, function name, placeholder count); the spec
    describes the table as keyed by "name + argument count + qualifier" and
    treats the hash as authoritative.
  - The token stream is a list; reading past the end yields EOF tokens
    (the real lexer terminates the stream with EOF).
  - Recursion in the parser is bounded by explicit fuel; running out of
    fuel is a parse error that a successful parse never hits.
  - Features of the default build: the `no_float` toggle is carried in a
    `Config` record (one claim distinguishes the two builds); the other
    feature gates (`no_index`, `no_object`, `no_module`, `no_function`,
    `only_i32`, `sync`, `unchecked`) are modelled in their default (off)
    state, so INT is i64.
-/

namespace Rhai

/-! ## Positions (token.rs, modelled) -/

/-- Modelled from the spec: token.rs is not under src/. A `Position` is a
(line, column) pair or the distinguished `none` position. -/
inductive Position where
  | none : Position
  | mk (line : Nat) (col : Nat) : Position
deriving DecidableEq, Repr, Inhabited

/-! ## Lexical errors (error.rs, modelled) -/

/-- Modelled from the spec: error.rs is not under src/. Only the lexical
error shapes the parser mentions are needed; `malformedNumber` carries the
offending literal text. -/
inductive LexError where
  | malformedNumber (s : String) : LexError
  | other (s : String) : LexError
deriving DecidableEq, Repr

/-- Modelled from the spec: the `Display` rendering of a lexical error,
as an injective encoding (the exact English text is immaterial to every
claim; only which error is rendered matters). -/
def LexError.toMessage : LexError → String
  | .malformedNumber s => "Invalid number: " ++ s
  | .other s => s

/-! ## Tokens (token.rs, modelled) -/

set_option maxHeartbeats 1600000 in
/-- Modelled from the spec: token.rs is not under src/. The token kinds are
exactly those the parser in parser.rs consumes, with the payloads the
parser destructures. INT is i64 (default build) and FLOAT is modelled as a
rational. -/
inductive Token where
  | IntegerConstant (i : Int)
  | FloatConstant (f : Rat)
  | CharConstant (c : Char)
  | StringConst (s : String)
  | Identifier (s : String)
  | LeftBrace | RightBrace | LeftParen | RightParen | LeftBracket | RightBracket
  | MapStart
  | Plus | UnaryPlus | Minus | UnaryMinus | Multiply | Divide | Modulo | PowerOf
  | LeftShift | RightShift
  | SemiColon | Colon | Comma | Period | DoubleColon
  | Equals
  | True | False
  | Let | Const | If | Else | While | Loop | For | In
  | LessThan | GreaterThan | LessThanEqualsTo | GreaterThanEqualsTo
  | EqualsTo | NotEqualsTo
  | Bang | Pipe | Or | XOr | Ampersand | And
  | Fn | Continue | Break | Return | Throw
  | PlusAssign | MinusAssign | MultiplyAssign | DivideAssign
  | LeftShiftAssign | RightShiftAssign | AndAssign | OrAssign | XOrAssign
  | ModuloAssign | PowerOfAssign
  | Private | Import | Export | As
  | LexError (e : LexError)
  | EOF
deriving Repr, Inhabited

/-- Equality of tokens (the source token enum's derived `PartialEq`),
written out by hand: payload-carrying kinds compare payloads, all other
kinds compare by tag. -/
def Token.beq : Token → Token → Bool
  | .IntegerConstant a, .IntegerConstant b => a == b
  | .FloatConstant a, .FloatConstant b => a == b
  | .CharConstant a, .CharConstant b => a == b
  | .StringConst a, .StringConst b => a == b
  | .Identifier a, .Identifier b => a == b
  | .LexError a, .LexError b => a == b
  | .LeftBrace, .LeftBrace => true
  | .RightBrace, .RightBrace => true
  | .LeftParen, .LeftParen => true
  | .RightParen, .RightParen => true
  | .LeftBracket, .LeftBracket => true
  | .RightBracket, .RightBracket => true
  | .MapStart, .MapStart => true
  | .Plus, .Plus => true
  | .UnaryPlus, .UnaryPlus => true
  | .Minus, .Minus => true
  | .UnaryMinus, .UnaryMinus => true
  | .Multiply, .Multiply => true
  | .Divide, .Divide => true
  | .Modulo, .Modulo => true
  | .PowerOf, .PowerOf => true
  | .LeftShift, .LeftShift => true
  | .RightShift, .RightShift => true
  | .SemiColon, .SemiColon => true
  | .Colon, .Colon => true
  | .Comma, .Comma => true
  | .Period, .Period => true
  | .DoubleColon, .DoubleColon => true
  | .Equals, .Equals => true
  | .True, .True => true
  | .False, .False => true
  | .Let, .Let => true
  | .Const, .Const => true
  | .If, .If => true
  | .Else, .Else => true
  | .While, .While => true
  | .Loop, .Loop => true
  | .For, .For => true
  | .In, .In => true
  | .LessThan, .LessThan => true
  | .GreaterThan, .GreaterThan => true
  | .LessThanEqualsTo, .LessThanEqualsTo => true
  | .GreaterThanEqualsTo, .GreaterThanEqualsTo => true
  | .EqualsTo, .EqualsTo => true
  | .NotEqualsTo, .NotEqualsTo => true
  | .Bang, .Bang => true
  | .Pipe, .Pipe => true
  | .Or, .Or => true
  | .XOr, .XOr => true
  | .Ampersand, .Ampersand => true
  | .And, .And => true
  | .Fn, .Fn => true
  | .Continue, .Continue => true
  | .Break, .Break => true
  | .Return, .Return => true
  | .Throw, .Throw => true
  | .PlusAssign, .PlusAssign => true
  | .MinusAssign, .MinusAssign => true
  | .MultiplyAssign, .MultiplyAssign => true
  | .DivideAssign, .DivideAssign => true
  | .LeftShiftAssign, .LeftShiftAssign => true
  | .RightShiftAssign, .RightShiftAssign => true
  | .AndAssign, .AndAssign => true
  | .OrAssign, .OrAssign => true
  | .XOrAssign, .XOrAssign => true
  | .ModuloAssign, .ModuloAssign => true
  | .PowerOfAssign, .PowerOfAssign => true
  | .Private, .Private => true
  | .Import, .Import => true
  | .Export, .Export => true
  | .As, .As => true
  | .EOF, .EOF => true
  | _, _ => false

instance : BEq Token := ⟨Token.beq⟩

namespace Token

/-- Modelled from the spec: the user-visible lexeme of each token
(spec section 6 lists the operator and keyword spellings). Used where the
parser calls `Token::syntax`. -/
def lexeme : Token → String
  | .IntegerConstant i => toString i
  | .FloatConstant f => toString f
  | .CharConstant c => String.mk [c]
  | .StringConst s => s
  | .Identifier s => s
  | .LeftBrace => "\x7b"
  | .RightBrace => "\x7d"
  | .LeftParen => "("
  | .RightParen => ")"
  | .LeftBracket => "["
  | .RightBracket => "]"
  | .MapStart => "#\x7b"
  | .Plus => "+"
  | .UnaryPlus => "+"
  | .Minus => "-"
  | .UnaryMinus => "-"
  | .Multiply => "*"
  | .Divide => "/"
  | .Modulo => "%"
  | .PowerOf => "~"
  | .LeftShift => "<<"
  | .RightShift => ">>"
  | .SemiColon => ";"
  | .Colon => ":"
  | .Comma => ","
  | .Period => "."
  | .DoubleColon => "::"
  | .Equals => "="
  | .True => "true"
  | .False => "false"
  | .Let => "let"
  | .Const => "const"
  | .If => "if"
  | .Else => "else"
  | .While => "while"
  | .Loop => "loop"
  | .For => "for"
  | .In => "in"
  | .LessThan => "<"
  | .GreaterThan => ">"
  | .LessThanEqualsTo => "<="
  | .GreaterThanEqualsTo => ">="
  | .EqualsTo => "=="
  | .NotEqualsTo => "!="
  | .Bang => "!"
  | .Pipe => "|"
  | .Or => "||"
  | .XOr => "^"
  | .Ampersand => "&"
  | .And => "&&"
  | .Fn => "fn"
  | .Continue => "continue"
  | .Break => "break"
  | .Return => "return"
  | .Throw => "throw"
  | .PlusAssign => "+="
  | .MinusAssign => "-="
  | .MultiplyAssign => "*="
  | .DivideAssign => "/="
  | .LeftShiftAssign => "<<="
  | .RightShiftAssign => ">>="
  | .AndAssign => "&="
  | .OrAssign => "|="
  | .XOrAssign => "^="
  | .ModuloAssign => "%="
  | .PowerOfAssign => "~="
  | .Private => "private"
  | .Import => "import"
  | .Export => "export"
  | .As => "as"
  | .LexError e => e.toMessage
  | .EOF => "end of file"

/-- Modelled from the spec: operator precedence, section 4.2 (low to high):
assignment and op-assign; `||`; `&&`; `|` `^`; `&`; `==` `!=` `in`;
`<` `<=` `>` `>=`; `<<` `>>`; `+` `-`; `*` `/` `%`; `**`; `.`.
Assignment-family tokens sit below the expression ladder's entry
precedence 1 so that `parse_op_assignment_stmt` handles them; all
non-operator tokens have precedence 0. -/
def precedence : Token → Nat
  | .Equals | .PlusAssign | .MinusAssign | .MultiplyAssign | .DivideAssign
  | .LeftShiftAssign | .RightShiftAssign | .AndAssign | .OrAssign
  | .XOrAssign | .ModuloAssign | .PowerOfAssign => 0
  | .Or => 30
  | .And => 60
  | .Pipe | .XOr => 65
  | .Ampersand => 70
  | .EqualsTo | .NotEqualsTo | .In => 90
  | .LessThan | .LessThanEqualsTo | .GreaterThan | .GreaterThanEqualsTo => 110
  | .LeftShift | .RightShift => 130
  | .Plus | .Minus => 150
  | .Multiply | .Divide | .Modulo => 180
  | .PowerOf => 190
  | .Period => 200
  | _ => 0

/-- Modelled from the spec: the right-binding operators are assignment,
power-of and the dot operator (spec section 4.2). -/
def isBindRight : Token → Bool
  | .Equals | .PlusAssign | .MinusAssign | .MultiplyAssign | .DivideAssign
  | .LeftShiftAssign | .RightShiftAssign | .AndAssign | .OrAssign
  | .XOrAssign | .ModuloAssign | .PowerOfAssign => true
  | .PowerOf => true
  | .Period => true
  | _ => false

/-- `Token::is_eof`. -/
def isEOF : Token → Bool
  | .EOF => true
  | _ => false

end Token

/-! ## Scope entry kinds (scope.rs `EntryType`) -/

/-- scope.rs `EntryType`: the kind of a scope-stack binding. -/
inductive ScopeEntryType where
  | Normal | Constant | Module
deriving DecidableEq, Repr

/-! ## Dispatch hashes (utils.rs `calc_fn_hash`, modelled) -/

/-- Modelled from the spec: utils.rs is not under src/. The spec (section
4.3) says each callable is keyed by a 64-bit hash "computed from three
ordered streams: the qualifier path (possibly empty), the function name,
and an arity-length sequence of type-identity placeholders", making the
mapping "name + argument count + qualifier"; the hash is treated as
authoritative. We model the hash by that key itself, which is injective in
the three components. -/
structure FnHash where
  quals : List String
  name : String
  placeholders : Nat
deriving DecidableEq, Repr

/-- Modelled from the spec: `calc_fn_hash(qualifiers, name, type-id
iterator)`; the parser always passes `repeat(EMPTY_TYPE_ID()).take(n)`, so
the third stream is captured by its length `n`. -/
def calc_fn_hash (quals : List String) (name : String) (placeholders : Nat) : FnHash :=
  ⟨quals, name, placeholders⟩

/-- The literal `0u64` hash the parser stores in a fresh unqualified
`Variable` node before any hash is computed. -/
def zeroHash : FnHash := ⟨[], "", 0⟩

/-! ## Dynamic values (any.rs, modelled) -/

/-- Modelled from the spec: any.rs is not under src/. A `Dynamic` value
carries a runtime type identity; the parser stores only `false.into()` as
an operator default, and the registration adapters need arbitrary typed
slots, modelled as a type-id token with an opaque payload. The type id of
`boolean` is 0. -/
inductive Dynamic where
  | boolean (b : Bool)
  | variant (tid : Nat) (payload : Int)
deriving DecidableEq, Repr

/-- The runtime type identity token of a value (`TypeId`). -/
def Dynamic.type_id : Dynamic → Nat
  | .boolean _ => 0
  | .variant t _ => t

/-! ## Parse errors (error.rs, modelled) -/

/-- Modelled from the spec: error.rs is not under src/. The
`ParseErrorType` variants are exactly those the parser constructs, with
the payloads it passes. -/
inductive PERR where
  | BadInput (msg : String)
  | UnexpectedEOF
  | UnknownOperator (op : String)
  | MissingToken (token : String) (reason : String)
  | MalformedIndexExpr (msg : String)
  | MalformedInExpr (msg : String)
  | DuplicatedProperty (name : String)
  | DuplicatedExport (name : String)
  | ForbiddenConstantExpr (name : String)
  | PropertyExpected
  | VariableExpected
  | ExprExpected (what : String)
  | FnMissingName
  | FnMissingParams (name : String)
  | FnMissingBody (name : String)
  | FnDuplicatedParam (fnName : String) (param : String)
  | WrongFnDefinition
  | WrongExport
  | AssignmentToConstant (name : String)
  | AssignmentToCopy
  | LoopBreak
deriving DecidableEq, Repr

/-- error.rs `ParseError`: a parse error type with a position
(`ParseErrorType::into_err`). -/
structure ParseError where
  errorType : PERR
  pos : Position
deriving DecidableEq, Repr

/-- `ParseErrorType::into_err(pos)`. -/
def PERR.intoErr (e : PERR) (pos : Position) : ParseError := ⟨e, pos⟩

/-! ## Module references (module.rs `ModuleRef`, partially modelled) -/

/-- module.rs `ModuleRef` as the parser uses it: an ordered qualifier path
of (segment, position) pairs plus the optional scope index written by
`set_index`. module.rs is not under src/; the operations (`push`, `get(0)`,
iteration over segments, `set_index`) are exactly those parser.rs calls. -/
structure ModuleRef where
  path : List (String × Position)
  index : Option Nat
deriving DecidableEq, Repr

namespace ModuleRef

/-- `Default::default()`: an empty module path. -/
def empty : ModuleRef := ⟨[], Option.none⟩

/-- `ModuleRef::push((name, pos))`. -/
def push (m : ModuleRef) (seg : String × Position) : ModuleRef :=
  { m with path := m.path ++ [seg] }

/-- `ModuleRef::set_index(idx)`. -/
def setIndex (m : ModuleRef) (idx : Option Nat) : ModuleRef :=
  { m with index := idx }

/-- The name of segment 0 (`modules.get(0).0`); the parser only calls this
on a non-empty path. -/
def firstName (m : ModuleRef) : String :=
  ((m.path.headD ("", Position.none))).1

/-- The qualifier-name stream `modules.iter().map(|(m, _)| m)`. -/
def names (m : ModuleRef) : List String := m.path.map (·.1)

end ModuleRef

/-- The qualifier stream of an optional module path: `empty()` when absent. -/
def modNames : Option ModuleRef → List String
  | Option.none => []
  | Option.some m => m.names

/-! ## AST nodes (parser.rs `Stmt`, `Expr`, `ReturnType`, `FnAccess`, `FnDef`) -/

/-- parser.rs `ReturnType`: `return` vs `throw`. -/
inductive ReturnType where
  | Return | Exception
deriving DecidableEq, Repr

/-- parser.rs `FnAccess`: access mode of a scripted function. -/
inductive FnAccess where
  | Private | Public
deriving DecidableEq, Repr

mutual

/-- parser.rs `Stmt`: a statement node. Tuple payloads mirror the boxed
tuples of the source. -/
inductive Stmt where
  | Noop (pos : Position)
  | IfThenElse (x : Expr × Stmt × Option Stmt)
  | While (x : Expr × Stmt)
  | Loop (body : Stmt)
  | For (x : String × Expr × Stmt)
  | Let (x : (String × Position) × Option Expr)
  | Const (x : (String × Position) × Expr)
  | Block (x : List Stmt × Position)
  | Expr (e : Expr)
  | Continue (pos : Position)
  | Break (pos : Position)
  | ReturnWithVal (x : (ReturnType × Position) × Option Expr)
  | Import (x : Expr × (String × Position))
  | Export (list : List ((String × Position) × Option (String × Position)))
deriving Repr

/-- parser.rs `Expr`: an expression node. `Variable` carries
((name, pos), optional module path, cached hash, optional resolved stack
offset); `FnCall` carries ((name, pos), optional module path, cached hash,
argument list, optional default value). -/
inductive Expr where
  | IntegerConstant (x : Int × Position)
  | FloatConstant (x : Rat × Position)
  | CharConstant (x : Char × Position)
  | StringConstant (x : String × Position)
  | Variable (x : (String × Position) × Option ModuleRef × FnHash × Option Nat)
  | Property (x : (String × String × String) × Position)
  | Stmt (x : Stmt × Position)
  | FnCall (x : (String × Position) × Option ModuleRef × FnHash × List Expr × Option Dynamic)
  | Assignment (x : Expr × Expr × Position)
  | Dot (x : Expr × Expr × Position)
  | Index (x : Expr × Expr × Position)
  | Array (x : List Expr × Position)
  | Map (x : List ((String × Position) × Expr) × Position)
  | In (x : Expr × Expr × Position)
  | And (x : Expr × Expr × Position)
  | Or (x : Expr × Expr × Position)
  | True (pos : Position)
  | False (pos : Position)
  | Unit (pos : Position)
deriving Repr

end

/-- parser.rs `FnDef`: a scripted function definition. -/
structure FnDef where
  name : String
  access : FnAccess
  params : List String
  body : Stmt
  pos : Position
deriving Repr

/-! ## Positions of nodes (parser.rs `Stmt::position`, `Expr::position`) -/

mutual

/-- `Stmt::position`. -/
def Stmt.position : Stmt → Position
  | .Noop pos | .Continue pos | .Break pos => pos
  | .Let x => x.1.2
  | .Const x => x.1.2
  | .ReturnWithVal x => x.1.2
  | .Block x => x.2
  | .IfThenElse x => x.1.position
  | .Expr e => e.position
  | .While x => x.2.position
  | .Loop body => body.position
  | .For x => x.2.2.position
  | .Import x => x.2.2
  | .Export list => (list.headD (("", Position.none), Option.none)).1.2

/-- `Expr::position`. -/
def Expr.position : Expr → Position
  | .FloatConstant x => x.2
  | .IntegerConstant x => x.2
  | .CharConstant x => x.2
  | .StringConstant x => x.2
  | .Array x => x.2
  | .Map x => x.2
  | .Property x => x.2
  | .Stmt x => x.2
  | .Variable x => x.1.2
  | .FnCall x => x.1.2
  | .And x | .Or x | .In x => x.2.2
  | .True pos | .False pos | .Unit pos => pos
  | .Assignment x | .Dot x | .Index x => x.1.position

end

/-! ## Constant and postfix tests (parser.rs `Expr::is_constant`,
`Expr::is_valid_postfix`, `Expr::into_property`) -/

mutual

/-- `Expr::is_constant`. -/
def Expr.is_constant : Expr → Bool
  | .FloatConstant _ => true
  | .IntegerConstant _ | .CharConstant _ | .StringConstant _
  | .True _ | .False _ | .Unit _ => true
  | .Array x => Expr.listIsConstant x.1
  | .Map x => Expr.mapIsConstant x.1
  | .In x =>
    match x.1, x.2.1 with
    | .StringConstant _, .StringConstant _ => true
    | .CharConstant _, .StringConstant _ => true
    | _, _ => false
  | _ => false

/-- `iter().all(Self::is_constant)` over an array literal's items. -/
def Expr.listIsConstant : List Expr → Bool
  | [] => true
  | e :: rest => e.is_constant && Expr.listIsConstant rest

/-- `iter().map(|(_, expr)| expr).all(Self::is_constant)` over a map
literal's entries. -/
def Expr.mapIsConstant : List ((String × Position) × Expr) → Bool
  | [] => true
  | (_, e) :: rest => e.is_constant && Expr.mapIsConstant rest

end

/-- `Expr::is_valid_postfix`. -/
def Expr.is_valid_postfix : Expr → Token → Bool
  | .FloatConstant _, _ => false
  | .IntegerConstant _, _ | .CharConstant _, _ | .In _, _ | .And _, _
  | .Or _, _ | .True _, _ | .False _, _ | .Unit _, _ => false
  | .StringConstant _, t | .Stmt _, t | .FnCall _, t | .Assignment _, t
  | .Dot _, t | .Index _, t | .Array _, t | .Map _, t =>
    match t with
    | .LeftBracket => true
    | _ => false
  | .Variable _, t =>
    match t with
    | .LeftBracket | .LeftParen | .DoubleColon => true
    | _ => false
  | .Property _, t =>
    match t with
    | .LeftBracket | .LeftParen => true
    | _ => false

/-- Modelled from the spec: engine.rs `make_getter` is not under src/; the
spec (section 4.4) says property getter names "derive deterministically
from the field (`get$field`)". -/
def make_getter (name : String) : String := "get$" ++ name

/-- Modelled from the spec: engine.rs `make_setter`, dually `set$field`. -/
def make_setter (name : String) : String := "set$" ++ name

/-- `Expr::into_property`: convert an unqualified `Variable` into a
`Property`; all other variants are untouched. -/
def Expr.into_property : Expr → Expr
  | .Variable x =>
    match x.2.1 with
    | Option.none =>
      let name := x.1.1
      let pos := x.1.2
      .Property ((name, make_getter name, make_setter name), pos)
    | Option.some _ => .Variable x
  | e => e

/-! ## The parser stack (parser.rs `Stack`) -/

/-- parser.rs `Stack`: a local stack of (name, kind) pairs simulating the
runtime scope; element 0 is the bottom, pushes append at the end. -/
abbrev Stack := List (String × ScopeEntryType)

/-- `Stack::new()`. -/
def Stack.new : Stack := []

/-- `Vec::push` on the underlying vector. -/
def Stack.push (s : Stack) (e : String × ScopeEntryType) : Stack := s ++ [e]

/-- `Vec::len`. -/
def Stack.len (s : Stack) : Nat := List.length s

/-- `Vec::truncate`. -/
def Stack.truncate (s : Stack) (n : Nat) : Stack := List.take n s

/-- `Stack::find`: reverse search for a variable (kinds `Normal` and
`Constant`), returning the non-zero offset from the top. -/
def Stack.find (s : Stack) (name : String) : Option Nat :=
  (List.findIdx? (fun e =>
      match e.2 with
      | .Normal | .Constant => e.1 == name
      | .Module => false) (List.reverse s)).map (· + 1)

/-- `Stack::find_module`: reverse search for a module binding. -/
def Stack.find_module (s : Stack) (name : String) : Option Nat :=
  (List.findIdx? (fun e =>
      match e.2 with
      | .Module => e.1 == name
      | .Normal | .Constant => false) (List.reverse s)).map (· + 1)

/-- `stack[stack.len() - offset]` as used by `make_assignment_stmt`. The
offsets stored in `Variable` nodes come from `Stack::find`, so the index is
in bounds wherever the parser evaluates it (the source would panic out of
bounds); out-of-bounds reads default to a `Normal` entry. -/
def Stack.entryAt (s : Stack) (i : Nat) : String × ScopeEntryType :=
  List.getD s i ("", ScopeEntryType.Normal)

/-! ## Build configuration -/

/-- The feature toggle relevant to the claims: `no_float` removes the
float fallback of integer negation. All other cargo features are modelled
in their default (disabled) state. -/
structure Config where
  noFloat : Bool
deriving DecidableEq, Repr

/-! ## The token stream (token.rs `TokenIterator`, modelled) -/

/-- A token with its position. -/
abbrev TP := Token × Position

/-- Modelled from the spec: the peekable `(Token, Position)` stream the
lexer produces. The lexer terminates every stream with `EOF`; reading an
exhausted list therefore yields `EOF` at `Position::none`. -/
abbrev Input := List TP

/-- `input.peek().unwrap()`. -/
def peekInput (input : Input) : TP :=
  input.headD (Token.EOF, Position.none)

/-- `input.next().unwrap()`: the head token and the rest of the stream. -/
def nextInput (input : Input) : TP × Input :=
  (peekInput input, input.tail)

/-- parser.rs `eat_token`: consume one token, which the call site has
already peeked to be `token` (the source asserts this and panics
otherwise), returning its position. -/
def eatToken (input : Input) (_token : Token) : Position × Input :=
  ((peekInput input).2, input.tail)

/-- parser.rs `match_token`: consume the next token when it equals
`token`; report whether it did. (The source wraps the `bool` in an
always-`Ok` `Result`.) -/
def matchToken (input : Input) (token : Token) : Bool × Input :=
  if (peekInput input).1 == token then (true, input.tail)
  else (false, input)

/-! ## Integer negation (`i64::checked_neg`) -/

/-- `i64::MIN` of the default build. -/
def INTmin : Int := -(2 ^ 63)

/-- `i64::MAX` of the default build. -/
def INTmax : Int := 2 ^ 63 - 1

/-- `i64::checked_neg`: the negation of the i64-ranged input when that
negation is representable (it is not exactly for `i64::MIN`). -/
def checkedNeg (n : Int) : Option Int :=
  if INTmin ≤ -n ∧ -n ≤ INTmax then Option.some (-n) else Option.none

/-- The conversion `x as FLOAT` of an i64 literal, modelled as the exact
rational. (f64 conversion rounds above 2^53; the single value the parser
feeds through this conversion, `i64::MIN`, is a power of two and converts
exactly.) -/
def intToFloat (n : Int) : Rat := (n : Rat)

/-! ## Duplicate scans (map literals, export lists, parameter lists) -/

/-- The duplicate scan the parser runs over map-literal keys, export names
and function parameters: for each entry in order, search the later entries
for an equal name; the first hit is returned with the position of the
later (duplicated) occurrence. -/
def findDup : List (String × Position) → Option (String × Position)
  | [] => Option.none
  | (k, _) :: rest =>
    match rest.find? (fun e => e.1 == k) with
    | Option.some dup => Option.some dup
    | Option.none => findDup rest

/-! ## Assignment validation (parser.rs `make_assignment_stmt`) -/

/-- The binding check `make_assignment_stmt` performs on a `Variable`
node, shared between the top-level-variable case and the chain-root case
(the source spells the identical match twice): an unresolved variable is
assignable; a resolved one is assignable iff the stack entry at its offset
is `Normal`; a `Constant` entry yields `AssignmentToConstant(name)` at the
name's position. (On a `Module` entry the source is `unreachable!()`:
`Stack::find` never returns module entries.) For any other node the chain
root is an `AssignmentToCopy` error. -/
def assignTargetCheck (stack : Stack) (e : Expr) : Option ParseError :=
  match e with
  | .Variable x =>
    match x.2.2.2 with
    | Option.none => Option.none
    | Option.some i =>
      match (stack.entryAt (stack.len - i)).2 with
      | .Normal => Option.none
      | .Constant => Option.some ((PERR.AssignmentToConstant x.1.1).intoErr x.1.2)
      | .Module =>
        Option.some ((PERR.BadInput "unreachable: module binding as assignment target").intoErr x.1.2)
  | e => Option.some (PERR.AssignmentToCopy.intoErr e.position)

/-- parser.rs `make_assignment_stmt`. -/
def make_assignment_stmt (stack : Stack) (lhs rhs : Expr) (pos : Position) :
    Except ParseError Expr :=
  match lhs with
  | .Variable x =>
    match assignTargetCheck stack (.Variable x) with
    | Option.none => .ok (.Assignment (.Variable x, rhs, pos))
    | Option.some err => .error err
  | .Index x =>
    match assignTargetCheck stack x.1 with
    | Option.none => .ok (.Assignment (.Index x, rhs, pos))
    | Option.some err => .error err
  | .Dot x =>
    match assignTargetCheck stack x.1 with
    | Option.none => .ok (.Assignment (.Dot x, rhs, pos))
    | Option.some err => .error err
  | lhs =>
    if lhs.is_constant then
      .error ((PERR.AssignmentToConstant "").intoErr lhs.position)
    else
      .error (PERR.AssignmentToCopy.intoErr lhs.position)

/-! ## Dot expressions (parser.rs `make_dot_expr`) -/

/-- parser.rs `make_dot_expr`. -/
def make_dot_expr (lhs rhs : Expr) (op_pos : Position) (is_index : Bool) :
    Except ParseError Expr :=
  match lhs, rhs with
  -- idx_lhs[idx_rhs].rhs: attach the dot chain to the bottom of the
  -- indexing chain
  | .Index x, rhs =>
    match make_dot_expr x.2.1 rhs op_pos true with
    | .ok e => .ok (.Index (x.1, e, x.2.2))
    | .error err => .error err
  -- lhs.id
  | lhs, .Variable x =>
    match x.2.1 with
    | Option.none =>
      let name := x.1.1
      let pos := x.1.2
      let lhs := if is_index then lhs.into_property else lhs
      let getter := make_getter name
      let setter := make_setter name
      .ok (.Dot (lhs, .Property ((name, getter, setter), pos), op_pos))
    -- lhs.module::id - syntax error
    | Option.some m =>
      .error (PERR.PropertyExpected.intoErr (m.path.headD ("", Position.none)).2)
  | lhs, .Property x =>
    let lhs := if is_index then lhs.into_property else lhs
    .ok (.Dot (lhs, .Property x, op_pos))
  -- lhs.dot_lhs.dot_rhs
  | lhs, .Dot x =>
    .ok (.Dot (lhs, .Dot (x.1.into_property, x.2.1.into_property, x.2.2), op_pos))
  -- lhs.idx_lhs[idx_rhs]
  | lhs, .Index x =>
    .ok (.Dot (lhs, .Index (x.1.into_property, x.2.1.into_property, x.2.2), op_pos))
  -- lhs.rhs
  | lhs, rhs => .ok (.Dot (lhs, rhs.into_property, op_pos))

/-! ## In expressions (parser.rs `make_in_expr`) -/

/-- The static shape check `make_in_expr` performs, arm for arm; `none`
means the pair is admissible. -/
def inExprCheck (lhs rhs : Expr) : Option ParseError :=
  match lhs, rhs with
  | _, .IntegerConstant x =>
    Option.some ((PERR.MalformedInExpr
      "'in' expression expects a string, array or object map").intoErr x.2)
  | _, .And x | _, .Or x | _, .In x | _, .Assignment x =>
    Option.some ((PERR.MalformedInExpr
      "'in' expression expects a string, array or object map").intoErr x.2.2)
  | _, .True pos | _, .False pos | _, .Unit pos =>
    Option.some ((PERR.MalformedInExpr
      "'in' expression expects a string, array or object map").intoErr pos)
  | _, .FloatConstant x =>
    Option.some ((PERR.MalformedInExpr
      "'in' expression expects a string, array or object map").intoErr x.2)
  -- "xxx" in "xxxx", 'x' in "xxxx" - OK!
  | .StringConstant _, .StringConstant _ => Option.none
  | .CharConstant _, .StringConstant _ => Option.none
  | .FloatConstant x, .StringConstant _ =>
    Option.some ((PERR.MalformedInExpr
      "'in' expression for a string expects a string, not a float").intoErr x.2)
  | .IntegerConstant x, .StringConstant _ =>
    Option.some ((PERR.MalformedInExpr
      "'in' expression for a string expects a string, not a number").intoErr x.2)
  | .And x, .StringConstant _ | .Or x, .StringConstant _ | .In x, .StringConstant _ =>
    Option.some ((PERR.MalformedInExpr
      "'in' expression for a string expects a string, not a boolean").intoErr x.2.2)
  | .True pos, .StringConstant _ | .False pos, .StringConstant _ =>
    Option.some ((PERR.MalformedInExpr
      "'in' expression for a string expects a string, not a boolean").intoErr pos)
  | .Array x, .StringConstant _ =>
    Option.some ((PERR.MalformedInExpr
      "'in' expression for a string expects a string, not an array").intoErr x.2)
  | .Map x, .StringConstant _ =>
    Option.some ((PERR.MalformedInExpr
      "'in' expression for a string expects a string, not an object map").intoErr x.2)
  | .Assignment x, .StringConstant _ =>
    Option.some ((PERR.MalformedInExpr
      "'in' expression for a string expects a string, not ()").intoErr x.2.2)
  | .Unit pos, .StringConstant _ =>
    Option.some ((PERR.MalformedInExpr
      "'in' expression for a string expects a string, not ()").intoErr pos)
  -- "xxx" in #{...}, 'x' in #{...} - OK!
  | .StringConstant _, .Map _ => Option.none
  | .CharConstant _, .Map _ => Option.none
  | .FloatConstant x, .Map _ =>
    Option.some ((PERR.MalformedInExpr
      "'in' expression for an object map expects a string, not a float").intoErr x.2)
  | .IntegerConstant x, .Map _ =>
    Option.some ((PERR.MalformedInExpr
      "'in' expression for an object map expects a string, not a number").intoErr x.2)
  | .And x, .Map _ | .Or x, .Map _ | .In x, .Map _ =>
    Option.some ((PERR.MalformedInExpr
      "'in' expression for an object map expects a string, not a boolean").intoErr x.2.2)
  | .True pos, .Map _ | .False pos, .Map _ =>
    Option.some ((PERR.MalformedInExpr
      "'in' expression for an object map expects a string, not a boolean").intoErr pos)
  | .Array x, .Map _ =>
    Option.some ((PERR.MalformedInExpr
      "'in' expression for an object map expects a string, not an array").intoErr x.2)
  | .Map x, .Map _ =>
    Option.some ((PERR.MalformedInExpr
      "'in' expression for an object map expects a string, not an object map").intoErr x.2)
  | .Assignment x, .Map _ =>
    Option.some ((PERR.MalformedInExpr
      "'in' expression for an object map expects a string, not ()").intoErr x.2.2)
  | .Unit pos, .Map _ =>
    Option.some ((PERR.MalformedInExpr
      "'in' expression for an object map expects a string, not ()").intoErr pos)
  | _, _ => Option.none

/-- parser.rs `make_in_expr`. -/
def make_in_expr (lhs rhs : Expr) (op_pos : Position) : Except ParseError Expr :=
  match inExprCheck lhs rhs with
  | Option.some err => .error err
  | Option.none => .ok (.In (lhs, rhs, op_pos))

/-! ## Remaining statement helpers -/

/-- `Stmt::is_self_terminated`. -/
def Stmt.is_self_terminated : Stmt → Bool
  | .IfThenElse _ | .While _ | .Loop _ | .For _ | .Block _ => true
  | .Noop _ => false
  | .Let _ | .Const _ | .Import _ | .Export _ | .Expr _
  | .Continue _ | .Break _ | .ReturnWithVal _ => false

/-- The error produced when the embedding's recursion fuel runs out; an
artifact of the shallow embedding (the source recurses without bound), hit
by no parse that any theorem below quantifies over successfully. -/
def fuelError : ParseError := (PERR.BadInput "recursion fuel exhausted").intoErr Position.none

/-- The result triple of an expression-parsing function: the expression,
the rest of the stream, and the (possibly grown) parser stack. -/
abbrev ExprRes := Except ParseError (Expr × Input × Stack)

/-- The result triple of a statement-parsing function. -/
abbrev StmtRes := Except ParseError (Stmt × Input × Stack)

/-- The hash-and-set-index step shared by both exits of `parse_call_expr`:
when a qualifier path is present, `set_index(stack.find_module(first
segment))` runs on it and the hash covers its segment names; otherwise the
qualifier stream is empty. -/
def callHashAndModules (stack : Stack) (modules : Option ModuleRef) (id : String)
    (argc : Nat) : FnHash × Option ModuleRef :=
  match modules with
  | Option.some m =>
    let m := m.setIndex (stack.find_module m.firstName)
    (calc_fn_hash m.names id argc, Option.some m)
  | Option.none => (calc_fn_hash [] id argc, Option.none)

/-- The static index-shape check at the head of `parse_index_chain`, arm
for arm; `none` means the (indexed expression, index expression) pair is
admissible. -/
def indexExprCheck (lhs idx : Expr) : Option ParseError :=
  match idx with
  -- lhs[int]
  | .IntegerConstant x =>
    if x.1 < 0 then
      Option.some ((PERR.MalformedIndexExpr
        ("Array access expects non-negative index: " ++ toString x.1 ++ " < 0")).intoErr x.2)
    else
      match lhs with
      | .Array _ | .StringConstant _ => Option.none
      | .Map _ =>
        Option.some ((PERR.MalformedIndexExpr
          "Object map access expects string index, not a number").intoErr x.2)
      | .FloatConstant y =>
        Option.some ((PERR.MalformedIndexExpr
          "Only arrays, object maps and strings can be indexed").intoErr y.2)
      | .CharConstant y =>
        Option.some ((PERR.MalformedIndexExpr
          "Only arrays, object maps and strings can be indexed").intoErr y.2)
      | .Assignment y | .And y | .Or y | .In y =>
        Option.some ((PERR.MalformedIndexExpr
          "Only arrays, object maps and strings can be indexed").intoErr y.2.2)
      | .True pos | .False pos | .Unit pos =>
        Option.some ((PERR.MalformedIndexExpr
          "Only arrays, object maps and strings can be indexed").intoErr pos)
      | _ => Option.none
  -- lhs[string]
  | .StringConstant x =>
    (match lhs with
     | .Map _ => Option.none
     | .Array _ | .StringConstant _ =>
       Option.some ((PERR.MalformedIndexExpr
         "Array or string expects numeric index, not a string").intoErr x.2)
     | .FloatConstant y =>
       Option.some ((PERR.MalformedIndexExpr
         "Only arrays, object maps and strings can be indexed").intoErr y.2)
     | .CharConstant y =>
       Option.some ((PERR.MalformedIndexExpr
         "Only arrays, object maps and strings can be indexed").intoErr y.2)
     | .Assignment y | .And y | .Or y | .In y =>
       Option.some ((PERR.MalformedIndexExpr
         "Only arrays, object maps and strings can be indexed").intoErr y.2.2)
     | .True pos | .False pos | .Unit pos =>
       Option.some ((PERR.MalformedIndexExpr
         "Only arrays, object maps and strings can be indexed").intoErr pos)
     | _ => Option.none)
  -- lhs[float]
  | .FloatConstant x =>
    Option.some ((PERR.MalformedIndexExpr
      "Array access expects integer index, not a float").intoErr x.2)
  -- lhs[char]
  | .CharConstant x =>
    Option.some ((PERR.MalformedIndexExpr
      "Array access expects integer index, not a character").intoErr x.2)
  -- lhs[??? = ???]
  | .Assignment x =>
    Option.some ((PERR.MalformedIndexExpr
      "Array access expects integer index, not ()").intoErr x.2.2)
  -- lhs[()]
  | .Unit pos =>
    Option.some ((PERR.MalformedIndexExpr
      "Array access expects integer index, not ()").intoErr pos)
  -- lhs[??? && ???], lhs[??? || ???], lhs[??? in ???]
  | .And x | .Or x | .In x =>
    Option.some ((PERR.MalformedIndexExpr
      "Array access expects integer index, not a boolean").intoErr x.2.2)
  -- lhs[true], lhs[false]
  | .True pos | .False pos =>
    Option.some ((PERR.MalformedIndexExpr
      "Array access expects integer index, not a boolean").intoErr pos)
  | _ => Option.none

/-- The hash recalculation `parse_binary_op` applies to the right operand
of `.` when it is a function call (a method call gains the implicit
receiver argument): the cached hash becomes the no-qualifier hash at
`args.len() + 1` placeholders. Other operands are untouched. -/
def bumpMethodCallHash : Expr → Expr
  | .FnCall x =>
    .FnCall (x.1, x.2.1, calc_fn_hash [] x.1.1 (x.2.2.2.1.length + 1), x.2.2.2.1, x.2.2.2.2)
  | e => e

/-- The hash-caching fixup at the end of `parse_primary`: a
module-qualified `Variable` root receives the hash of qualifiers + name
(no placeholders) and its module path receives the scope index of its
first segment. -/
def fixRootExpr (stack : Stack) : Expr → Expr
  | .Variable x =>
    match x.2.1 with
    | Option.some m =>
      let hash := calc_fn_hash m.names x.1.1 0
      let m := m.setIndex (stack.find_module m.firstName)
      .Variable (x.1, Option.some m, hash, x.2.2.2)
    | Option.none => .Variable x
  | e => e

/-- parser.rs `ensure_not_statement_expr`. -/
def ensureNotStatementExpr (input : Input) (typeName : String) : Option ParseError :=
  match peekInput input with
  | (.LeftBrace, pos) | (.EOF, pos) => Option.some ((PERR.ExprExpected typeName).intoErr pos)
  | _ => Option.none

/-- parser.rs `ensure_not_assignment`. -/
def ensureNotAssignment (input : Input) : Option ParseError :=
  match peekInput input with
  | (.Equals, pos) =>
    Option.some ((PERR.BadInput "Possibly a typo of '=='?").intoErr pos)
  | (.PlusAssign, pos) | (.MinusAssign, pos) | (.MultiplyAssign, pos)
  | (.DivideAssign, pos) | (.LeftShiftAssign, pos) | (.RightShiftAssign, pos)
  | (.ModuloAssign, pos) | (.PowerOfAssign, pos) | (.AndAssign, pos)
  | (.OrAssign, pos) | (.XOrAssign, pos) =>
    Option.some ((PERR.BadInput "Expecting a boolean expression, not an assignment").intoErr pos)
  | _ => Option.none

/-- `HashMap::insert` on the global function map: replace the definition
at an existing hash key, otherwise add the entry. -/
def insertFnMap (m : List (FnHash × FnDef)) (k : FnHash) (v : FnDef) :
    List (FnHash × FnDef) :=
  if m.any (fun kv => kv.1 == k) then
    m.map (fun kv => if kv.1 == k then (k, v) else kv)
  else m ++ [(k, v)]

/-- The collection loop of parser.rs `parse_export` (it invokes no
sub-parser, so it lives outside the mutual block). -/
def parseExportLoop : Nat → Input → List ((String × Position) × Option (String × Position)) →
    Except ParseError (Stmt × Input)
  | 0, _, _ => .error fuelError
  | fuel + 1, input, exports =>
    match nextInput input with
    | ((Token.Identifier s, idPos), input) =>
      let (asMatched, input) := matchToken input Token.As
      let renameRes : Except ParseError (Option (String × Position) × Input) :=
        if asMatched then
          match nextInput input with
          | ((Token.Identifier s2, p2), input) => .ok (Option.some (s2, p2), input)
          | ((_, p2), _) => .error (PERR.VariableExpected.intoErr p2)
        else .ok (Option.none, input)
      match renameRes with
      | .error e => .error e
      | .ok (rename, input) =>
        let exports := exports ++ [((s, idPos), rename)]
        match peekInput input with
        | (Token.Comma, _) =>
          let (_, input) := eatToken input Token.Comma
          parseExportLoop fuel input exports
        | (Token.Identifier _, pos) =>
          .error ((PERR.MissingToken "," "to separate the list of exports").intoErr pos)
        | _ =>
          -- Check for duplicated exports, then build the statement
          match findDup (exports.map (·.1)) with
          | Option.some (k, pos) => .error ((PERR.DuplicatedExport k).intoErr pos)
          | Option.none => .ok (Stmt.Export exports, input)
    | ((Token.LexError e, pos), _) => .error ((PERR.BadInput e.toMessage).intoErr pos)
    | ((_, pos), _) => .error (PERR.VariableExpected.intoErr pos)

/-- parser.rs `parse_export`. -/
def parseExport (fuel : Nat) (input : Input) : Except ParseError (Stmt × Input) :=
  let (_, input) := eatToken input Token.Export
  parseExportLoop fuel input []

/-- The operator dispatch at the bottom of the `parse_binary_op` loop:
from the consumed operator token and the two operands, build the new
left-hand expression (arithmetic/bitwise/comparison operators become
`FnCall` nodes over the operator's lexeme with a two-placeholder hash,
comparisons carrying the default `false`; `&&`/`||` become `And`/`Or`;
`in` goes through `make_in_expr`; `.` recalculates a method call's hash
for the implicit receiver and goes through `make_dot_expr`). -/
def makeBinaryOpNode (opToken : Token) (pos : Position) (lhs rhs : Expr) :
    Except ParseError Expr :=
  let cmpDefault := Option.some (Dynamic.boolean false)
  let op := opToken.lexeme
  let hash := calc_fn_hash [] op 2
  let args := [lhs, rhs]
  match opToken with
  | Token.Plus | Token.Minus | Token.Multiply | Token.Divide
  | Token.LeftShift | Token.RightShift | Token.Modulo | Token.PowerOf =>
    .ok (.FnCall ((op, pos), Option.none, hash, args, Option.none))
  -- Comparison operators default to false when passed invalid operands
  | Token.EqualsTo | Token.NotEqualsTo | Token.LessThan
  | Token.LessThanEqualsTo | Token.GreaterThan | Token.GreaterThanEqualsTo =>
    .ok (.FnCall ((op, pos), Option.none, hash, args, cmpDefault))
  | Token.Or => .ok (.Or (lhs, rhs, pos))
  | Token.And => .ok (.And (lhs, rhs, pos))
  | Token.Ampersand | Token.Pipe | Token.XOr =>
    .ok (.FnCall ((op, pos), Option.none, hash, args, Option.none))
  | Token.In => make_in_expr lhs rhs pos
  | Token.Period => make_dot_expr lhs (bumpMethodCallHash rhs) pos false
  | t => .error ((PERR.UnknownOperator t.lexeme).intoErr pos)

/-! ## The recursive-descent parser (parser.rs `parse_*`)

Each function mirrors its source namesake; the extra leading `Nat` is the
recursion fuel of the embedding, and the mutable `input`/`stack` of the
source are threaded through results. -/

set_option maxHeartbeats 4000000 in
mutual

/-- parser.rs `parse_expr`. -/
def parseExpr (cfg : Config) : Nat → Input → Stack → Bool → ExprRes
  | 0, _, _, _ => .error fuelError
  | fuel + 1, input, stack, allowStmtExpr =>
    match parseUnary cfg fuel input stack allowStmtExpr with
    | .error e => .error e
    | .ok (lhs, input, stack) => parseBinaryOp cfg fuel 1 lhs input stack allowStmtExpr

/-- parser.rs `parse_paren_expr`. -/
def parseParenExpr (cfg : Config) : Nat → Input → Stack → Position → Bool → ExprRes
  | 0, _, _, _, _ => .error fuelError
  | fuel + 1, input, stack, pos, allowStmtExpr =>
    match matchToken input Token.RightParen with
    | (true, input) => .ok (.Unit pos, input, stack)
    | (false, input) =>
      match parseExpr cfg fuel input stack allowStmtExpr with
      | .error e => .error e
      | .ok (expr, input, stack) =>
        match nextInput input with
        -- ( xxx )
        | ((Token.RightParen, _), input) => .ok (expr, input, stack)
        -- ( <error>
        | ((Token.LexError e, pos), _) => .error ((PERR.BadInput e.toMessage).intoErr pos)
        -- ( xxx ???
        | ((_, pos), _) =>
          .error ((PERR.MissingToken ")" "for a matching ( in this expression").intoErr pos)

/-- parser.rs `parse_call_expr`. -/
def parseCallExpr (cfg : Config) :
    Nat → Input → Stack → String → Option ModuleRef → Position → Bool → ExprRes
  | 0, _, _, _, _, _, _ => .error fuelError
  | fuel + 1, input, stack, id, modules, begin, allowStmtExpr =>
    match peekInput input with
    -- id <EOF>
    | (Token.EOF, pos) =>
      .error ((PERR.MissingToken ")"
        ("to close the arguments list of this function call '" ++ id ++ "'")).intoErr pos)
    -- id <error>
    | (Token.LexError e, pos) => .error ((PERR.BadInput e.toMessage).intoErr pos)
    -- id()
    | (Token.RightParen, _) =>
      let (_, input) := eatToken input Token.RightParen
      let hm := callHashAndModules stack modules id 0
      .ok (.FnCall ((id, begin), hm.2, hm.1, [], Option.none), input, stack)
    -- id...
    | _ => parseCallArgsLoop cfg fuel input stack id modules begin [] allowStmtExpr

/-- The argument loop of parser.rs `parse_call_expr`. -/
def parseCallArgsLoop (cfg : Config) :
    Nat → Input → Stack → String → Option ModuleRef → Position → List Expr → Bool → ExprRes
  | 0, _, _, _, _, _, _, _ => .error fuelError
  | fuel + 1, input, stack, id, modules, begin, args, allowStmtExpr =>
    match parseExpr cfg fuel input stack allowStmtExpr with
    | .error e => .error e
    | .ok (arg, input, stack) =>
      let args := args ++ [arg]
      match peekInput input with
      -- id(...args)
      | (Token.RightParen, _) =>
        let (_, input) := eatToken input Token.RightParen
        let hm := callHashAndModules stack modules id args.length
        .ok (.FnCall ((id, begin), hm.2, hm.1, args, Option.none), input, stack)
      -- id(...args,
      | (Token.Comma, _) =>
        let (_, input) := eatToken input Token.Comma
        parseCallArgsLoop cfg fuel input stack id modules begin args allowStmtExpr
      -- id(...args <EOF>
      | (Token.EOF, pos) =>
        .error ((PERR.MissingToken ")"
          ("to close the arguments list of this function call '" ++ id ++ "'")).intoErr pos)
      -- id(...args <error>
      | (Token.LexError e, pos) => .error ((PERR.BadInput e.toMessage).intoErr pos)
      -- id(...args ???
      | (_, pos) =>
        .error ((PERR.MissingToken ","
          ("to separate the arguments to function call '" ++ id ++ "'")).intoErr pos)

/-- parser.rs `parse_index_chain`. -/
def parseIndexChain (cfg : Config) : Nat → Input → Stack → Expr → Position → Bool → ExprRes
  | 0, _, _, _, _, _ => .error fuelError
  | fuel + 1, input, stack, lhs, pos, allowStmtExpr =>
    match parseExpr cfg fuel input stack allowStmtExpr with
    | .error e => .error e
    | .ok (idxExpr, input, stack) =>
      match indexExprCheck lhs idxExpr with
      | Option.some err => .error err
      | Option.none =>
        -- Check if there is a closing bracket
        match peekInput input with
        | (Token.RightBracket, _) =>
          let (_, input) := eatToken input Token.RightBracket
          -- Any more indexing following?
          match peekInput input with
          -- If another indexing level, right-bind it
          | (Token.LeftBracket, _) =>
            let (idxPos, input) := eatToken input Token.LeftBracket
            match parseIndexChain cfg fuel input stack idxExpr idxPos allowStmtExpr with
            | .error e => .error e
            | .ok (idx, input, stack) => .ok (.Index (lhs, idx, pos), input, stack)
          -- Otherwise terminate the indexing chain
          | _ => .ok (.Index (lhs, idxExpr, pos), input, stack)
        | (Token.LexError e, pos2) => .error ((PERR.BadInput e.toMessage).intoErr pos2)
        | (_, pos2) =>
          .error ((PERR.MissingToken "]"
            "for a matching [ in this index expression").intoErr pos2)

/-- parser.rs `parse_array_literal`. -/
def parseArrayLiteral (cfg : Config) : Nat → Input → Stack → Position → Bool → ExprRes
  | 0, _, _, _, _ => .error fuelError
  | fuel + 1, input, stack, pos, allowStmtExpr =>
    match matchToken input Token.RightBracket with
    | (true, input) => .ok (.Array ([], pos), input, stack)
    | (false, input) => parseArrayLoop cfg fuel input stack [] pos allowStmtExpr

/-- The item loop of parser.rs `parse_array_literal` (`while` over
non-EOF input; leaving via EOF returns the literal built so far, as in the
source). -/
def parseArrayLoop (cfg : Config) : Nat → Input → Stack → List Expr → Position → Bool → ExprRes
  | 0, _, _, _, _, _ => .error fuelError
  | fuel + 1, input, stack, arr, pos, allowStmtExpr =>
    if (peekInput input).1.isEOF then .ok (.Array (arr, pos), input, stack)
    else
      match parseExpr cfg fuel input stack allowStmtExpr with
      | .error e => .error e
      | .ok (item, input, stack) =>
        let arr := arr ++ [item]
        match peekInput input with
        | (Token.Comma, _) =>
          let (_, input) := eatToken input Token.Comma
          parseArrayLoop cfg fuel input stack arr pos allowStmtExpr
        | (Token.RightBracket, _) =>
          let (_, input) := eatToken input Token.RightBracket
          .ok (.Array (arr, pos), input, stack)
        | (Token.EOF, pos2) =>
          .error ((PERR.MissingToken "]" "to end this array literal").intoErr pos2)
        | (Token.LexError e, pos2) => .error ((PERR.BadInput e.toMessage).intoErr pos2)
        | (_, pos2) =>
          .error ((PERR.MissingToken ","
            "to separate the items of this array literal").intoErr pos2)

/-- parser.rs `parse_map_literal`. -/
def parseMapLiteral (cfg : Config) : Nat → Input → Stack → Position → Bool → ExprRes
  | 0, _, _, _, _ => .error fuelError
  | fuel + 1, input, stack, pos, allowStmtExpr =>
    match matchToken input Token.RightBrace with
    | (true, input) => finishMapLiteral [] pos input stack
    | (false, input) => parseMapLoop cfg fuel input stack [] pos allowStmtExpr

/-- The entry loop of parser.rs `parse_map_literal`. -/
def parseMapLoop (cfg : Config) :
    Nat → Input → Stack → List ((String × Position) × Expr) → Position → Bool → ExprRes
  | 0, _, _, _, _, _ => .error fuelError
  | fuel + 1, input, stack, entries, pos, allowStmtExpr =>
    if (peekInput input).1.isEOF then finishMapLiteral entries pos input stack
    else
      let nameRes : Except ParseError ((String × Position) × Input) :=
        match nextInput input with
        | ((Token.Identifier s, npos), input) => .ok ((s, npos), input)
        | ((Token.StringConst s, npos), input) => .ok ((s, npos), input)
        | ((Token.LexError e, npos), _) => .error ((PERR.BadInput e.toMessage).intoErr npos)
        | ((t, npos), _) =>
          if entries.isEmpty then
            .error ((PERR.MissingToken "\x7d" "to end this object map literal").intoErr npos)
          else
            match t with
            | Token.EOF =>
              .error ((PERR.MissingToken "\x7d" "to end this object map literal").intoErr npos)
            | _ => .error (PERR.PropertyExpected.intoErr npos)
      match nameRes with
      | .error e => .error e
      | .ok ((name, npos), input) =>
        let colonRes : Except ParseError Input :=
          match nextInput input with
          | ((Token.Colon, _), input) => .ok input
          | ((Token.LexError e, cpos), _) => .error ((PERR.BadInput e.toMessage).intoErr cpos)
          | ((_, cpos), _) =>
            .error ((PERR.MissingToken ":"
              ("to follow the property '" ++ name ++ "' in this object map literal")).intoErr cpos)
        match colonRes with
        | .error e => .error e
        | .ok input =>
          match parseExpr cfg fuel input stack allowStmtExpr with
          | .error e => .error e
          | .ok (expr, input, stack) =>
            let entries := entries ++ [((name, npos), expr)]
            match peekInput input with
            | (Token.Comma, _) =>
              let (_, input) := eatToken input Token.Comma
              parseMapLoop cfg fuel input stack entries pos allowStmtExpr
            | (Token.RightBrace, _) =>
              let (_, input) := eatToken input Token.RightBrace
              finishMapLiteral entries pos input stack
            | (Token.Identifier _, pos2) =>
              .error ((PERR.MissingToken ","
                "to separate the items of this object map literal").intoErr pos2)
            | (Token.LexError e, pos2) => .error ((PERR.BadInput e.toMessage).intoErr pos2)
            | (_, pos2) =>
              .error ((PERR.MissingToken "\x7d" "to end this object map literal").intoErr pos2)

/-- The duplicate-property check and construction at the end of
parser.rs `parse_map_literal`. -/
def finishMapLiteral (entries : List ((String × Position) × Expr)) (pos : Position)
    (input : Input) (stack : Stack) : ExprRes :=
  match findDup (entries.map (·.1)) with
  | Option.some (key, dupPos) => .error ((PERR.DuplicatedProperty key).intoErr dupPos)
  | Option.none => .ok (.Map (entries, pos), input, stack)

/-- parser.rs `parse_primary` (initial token dispatch). -/
def parsePrimary (cfg : Config) : Nat → Input → Stack → Bool → ExprRes
  | 0, _, _, _ => .error fuelError
  | fuel + 1, input, stack, allowStmtExpr =>
    let (tok0, pos0) := peekInput input
    -- { - block statement as expression
    if tok0 == Token.LeftBrace && allowStmtExpr then
      match parseBlock cfg fuel input stack false allowStmtExpr with
      | .error e => .error e
      | .ok (block, input, stack) => .ok (.Stmt (block, pos0), input, stack)
    else if tok0 == Token.EOF then .error (PERR.UnexpectedEOF.intoErr pos0)
    else
      let ((token, pos), input) := nextInput input
      let rootRes : ExprRes :=
        match token with
        | Token.IntegerConstant x => .ok (.IntegerConstant (x, pos), input, stack)
        -- In a `no_float` build this token kind does not exist, so the arm
        -- is vacuous there.
        | Token.FloatConstant x => .ok (.FloatConstant (x, pos), input, stack)
        | Token.CharConstant c => .ok (.CharConstant (c, pos), input, stack)
        | Token.StringConst s => .ok (.StringConstant (s, pos), input, stack)
        | Token.Identifier s =>
          let index := stack.find s
          .ok (.Variable ((s, pos), Option.none, zeroHash, index), input, stack)
        | Token.LeftParen => parseParenExpr cfg fuel input stack pos allowStmtExpr
        | Token.LeftBracket => parseArrayLiteral cfg fuel input stack pos allowStmtExpr
        | Token.MapStart => parseMapLiteral cfg fuel input stack pos allowStmtExpr
        | Token.True => .ok (.True pos, input, stack)
        | Token.False => .ok (.False pos, input, stack)
        | Token.LexError e => .error ((PERR.BadInput e.toMessage).intoErr pos)
        | t => .error ((PERR.BadInput ("Unexpected '" ++ t.lexeme ++ "'")).intoErr pos)
      match rootRes with
      | .error e => .error e
      | .ok (root, input, stack) => parsePrimaryTail cfg fuel input stack root allowStmtExpr

/-- The postfix-operator loop (and final qualified-variable hash fixup)
of parser.rs `parse_primary`. -/
def parsePrimaryTail (cfg : Config) : Nat → Input → Stack → Expr → Bool → ExprRes
  | 0, _, _, _, _ => .error fuelError
  | fuel + 1, input, stack, root, allowStmtExpr =>
    if !(root.is_valid_postfix (peekInput input).1) then
      .ok (fixRootExpr stack root, input, stack)
    else
      let ((token, tokenPos), input) := nextInput input
      match root, token with
      -- Function call
      | .Variable x, Token.LeftParen =>
        match parseCallExpr cfg fuel input stack x.1.1 x.2.1 x.1.2 allowStmtExpr with
        | .error e => .error e
        | .ok (e, input, stack) => parsePrimaryTail cfg fuel input stack e allowStmtExpr
      -- module access
      | .Variable x, Token.DoubleColon =>
        (match nextInput input with
         | ((Token.Identifier id2, pos2), input) =>
           let modules : Option ModuleRef :=
             match x.2.1 with
             | Option.some m => Option.some (m.push (x.1.1, x.1.2))
             | Option.none => Option.some (ModuleRef.empty.push (x.1.1, x.1.2))
           parsePrimaryTail cfg fuel input stack
             (.Variable ((id2, pos2), modules, zeroHash, x.2.2.2)) allowStmtExpr
         | ((_, pos2), _) => .error (PERR.VariableExpected.intoErr pos2))
      -- Indexing
      | root, Token.LeftBracket =>
        match parseIndexChain cfg fuel input stack root tokenPos allowStmtExpr with
        | .error e => .error e
        | .ok (e, input, stack) => parsePrimaryTail cfg fuel input stack e allowStmtExpr
      -- Unknown postfix operator: the source panics here; `is_valid_postfix`
      -- makes this arm unreachable.
      | _, _ => .error ((PERR.BadInput "unreachable: unknown postfix operator").intoErr tokenPos)

/-- parser.rs `parse_unary`. -/
def parseUnary (cfg : Config) : Nat → Input → Stack → Bool → ExprRes
  | 0, _, _, _ => .error fuelError
  | fuel + 1, input, stack, allowStmtExpr =>
    match peekInput input with
    -- If statement is allowed to act as expressions
    | (Token.If, pos) =>
      (match parseIf cfg fuel input stack false allowStmtExpr with
       | .error e => .error e
       | .ok (stmt, input, stack) => .ok (.Stmt (stmt, pos), input, stack))
    -- -expr
    | (Token.UnaryMinus, _) =>
      let (pos, input) := eatToken input Token.UnaryMinus
      match parseUnary cfg fuel input stack allowStmtExpr with
      | .error e => .error e
      -- Negative integer
      | .ok (.IntegerConstant x, input, stack) =>
        (match checkedNeg x.1 with
         | Option.some i => .ok (.IntegerConstant (i, x.2), input, stack)
         | Option.none =>
           if cfg.noFloat then
             .error ((PERR.BadInput
               (LexError.malformedNumber ("-" ++ toString x.1)).toMessage).intoErr x.2)
           else
             .ok (.FloatConstant (-(intToFloat x.1), x.2), input, stack))
      -- Negative float
      | .ok (.FloatConstant x, input, stack) => .ok (.FloatConstant (-x.1, x.2), input, stack)
      -- Call negative function
      | .ok (expr, input, stack) =>
        .ok (.FnCall (("-", pos), Option.none, calc_fn_hash [] "-" 2, [expr], Option.none),
          input, stack)
    -- +expr
    | (Token.UnaryPlus, _) =>
      let (_, input) := eatToken input Token.UnaryPlus
      parseUnary cfg fuel input stack allowStmtExpr
    -- !expr
    | (Token.Bang, _) =>
      let (pos, input) := eatToken input Token.Bang
      (match parsePrimary cfg fuel input stack allowStmtExpr with
       | .error e => .error e
       | .ok (expr, input, stack) =>
         -- NOT operator, when operating on invalid operand, defaults to false
         .ok (.FnCall (("!", pos), Option.none, calc_fn_hash [] "!" 2, [expr],
           Option.some (Dynamic.boolean false)), input, stack))
    -- <EOF>
    | (Token.EOF, pos) => .error (PERR.UnexpectedEOF.intoErr pos)
    -- All other tokens
    | _ => parsePrimary cfg fuel input stack allowStmtExpr

/-- parser.rs `parse_binary_op` (the precedence-ladder loop). -/
def parseBinaryOp (cfg : Config) : Nat → Nat → Expr → Input → Stack → Bool → ExprRes
  | 0, _, _, _, _, _ => .error fuelError
  | fuel + 1, parentPrecedence, lhs, input, stack, allowStmtExpr =>
    let currentPrecedence := (peekInput input).1.precedence
    let bindRight := (peekInput input).1.isBindRight
    -- Bind left to the parent lhs expression if precedence is higher
    if currentPrecedence < parentPrecedence
        || (currentPrecedence == parentPrecedence && !bindRight) then
      .ok (lhs, input, stack)
    else
      let ((opToken, pos), input) := nextInput input
      match parseUnary cfg fuel input stack allowStmtExpr with
      | .error e => .error e
      | .ok (rhs, input, stack) =>
        let nextPrecedence := (peekInput input).1.precedence
        let rhsRes : ExprRes :=
          if (currentPrecedence == nextPrecedence && bindRight)
              || currentPrecedence < nextPrecedence then
            parseBinaryOp cfg fuel currentPrecedence rhs input stack allowStmtExpr
          else .ok (rhs, input, stack)
        match rhsRes with
        | .error e => .error e
        | .ok (rhs, input, stack) =>
          match makeBinaryOpNode opToken pos lhs rhs with
          | .error e => .error e
          | .ok newLhs => parseBinaryOp cfg fuel parentPrecedence newLhs input stack allowStmtExpr

/-- parser.rs `parse_op_assignment_stmt`. -/
def parseOpAssignmentStmt (cfg : Config) : Nat → Input → Stack → Expr → Bool → ExprRes
  | 0, _, _, _, _ => .error fuelError
  | fuel + 1, input, stack, lhs, allowStmtExpr =>
    let opFor : Token → Option String := fun t =>
      match t with
      | Token.PlusAssign => Option.some "+"
      | Token.MinusAssign => Option.some "-"
      | Token.MultiplyAssign => Option.some "*"
      | Token.DivideAssign => Option.some "/"
      | Token.LeftShiftAssign => Option.some "<<"
      | Token.RightShiftAssign => Option.some ">>"
      | Token.ModuloAssign => Option.some "%"
      | Token.PowerOfAssign => Option.some "~"
      | Token.AndAssign => Option.some "&"
      | Token.OrAssign => Option.some "|"
      | Token.XOrAssign => Option.some "^"
      | _ => Option.none
    match peekInput input with
    | (Token.Equals, _) =>
      let (pos, input) := eatToken input Token.Equals
      (match parseExpr cfg fuel input stack allowStmtExpr with
       | .error e => .error e
       | .ok (rhs, input, stack) =>
         match make_assignment_stmt stack lhs rhs pos with
         | .error e => .error e
         | .ok e => .ok (e, input, stack))
    | (t, pos) =>
      match opFor t with
      | Option.none => .ok (lhs, input, stack)
      | Option.some op =>
        let (_, input) := nextInput input
        match parseExpr cfg fuel input stack allowStmtExpr with
        | .error e => .error e
        | .ok (rhs, input, stack) =>
          -- lhs op= rhs -> lhs = op(lhs, rhs)
          let args := [lhs, rhs]
          let hash := calc_fn_hash [] op args.length
          let rhsExpr := Expr.FnCall ((op, pos), Option.none, hash, args, Option.none)
          match make_assignment_stmt stack lhs rhsExpr pos with
          | .error e => .error e
          | .ok e => .ok (e, input, stack)

/-- parser.rs `parse_if`. -/
def parseIf (cfg : Config) : Nat → Input → Stack → Bool → Bool → StmtRes
  | 0, _, _, _, _ => .error fuelError
  | fuel + 1, input, stack, breakable, allowStmtExpr =>
    let (_, input) := eatToken input Token.If
    match ensureNotStatementExpr input "a boolean" with
    | Option.some err => .error err
    | Option.none =>
      match parseExpr cfg fuel input stack allowStmtExpr with
      | .error e => .error e
      | .ok (guard, input, stack) =>
        match ensureNotAssignment input with
        | Option.some err => .error err
        | Option.none =>
          match parseBlock cfg fuel input stack breakable allowStmtExpr with
          | .error e => .error e
          | .ok (ifBody, input, stack) =>
            match matchToken input Token.Else with
            | (true, input) =>
              let elseRes : StmtRes :=
                if (peekInput input).1 == Token.If then
                  parseIf cfg fuel input stack breakable allowStmtExpr
                else
                  parseBlock cfg fuel input stack breakable allowStmtExpr
              (match elseRes with
               | .error e => .error e
               | .ok (elseBody, input, stack) =>
                 .ok (.IfThenElse (guard, ifBody, Option.some elseBody), input, stack))
            | (false, input) =>
              .ok (.IfThenElse (guard, ifBody, Option.none), input, stack)

/-- parser.rs `parse_while`. -/
def parseWhile (cfg : Config) : Nat → Input → Stack → Bool → StmtRes
  | 0, _, _, _ => .error fuelError
  | fuel + 1, input, stack, allowStmtExpr =>
    let (_, input) := eatToken input Token.While
    match ensureNotStatementExpr input "a boolean" with
    | Option.some err => .error err
    | Option.none =>
      match parseExpr cfg fuel input stack allowStmtExpr with
      | .error e => .error e
      | .ok (guard, input, stack) =>
        match ensureNotAssignment input with
        | Option.some err => .error err
        | Option.none =>
          match parseBlock cfg fuel input stack true allowStmtExpr with
          | .error e => .error e
          | .ok (body, input, stack) => .ok (.While (guard, body), input, stack)

/-- parser.rs `parse_loop`. -/
def parseLoop (cfg : Config) : Nat → Input → Stack → Bool → StmtRes
  | 0, _, _, _ => .error fuelError
  | fuel + 1, input, stack, allowStmtExpr =>
    let (_, input) := eatToken input Token.Loop
    match parseBlock cfg fuel input stack true allowStmtExpr with
    | .error e => .error e
    | .ok (body, input, stack) => .ok (.Loop body, input, stack)

/-- parser.rs `parse_for`. -/
def parseFor (cfg : Config) : Nat → Input → Stack → Bool → StmtRes
  | 0, _, _, _ => .error fuelError
  | fuel + 1, input, stack, allowStmtExpr =>
    let (_, input) := eatToken input Token.For
    let nameRes : Except ParseError (String × Input) :=
      match nextInput input with
      | ((Token.Identifier s, _), input) => .ok (s, input)
      | ((Token.LexError e, pos), _) => .error ((PERR.BadInput e.toMessage).intoErr pos)
      | ((_, pos), _) => .error (PERR.VariableExpected.intoErr pos)
    match nameRes with
    | .error e => .error e
    | .ok (name, input) =>
      let inRes : Except ParseError Input :=
        match nextInput input with
        | ((Token.In, _), input) => .ok input
        | ((Token.LexError e, pos), _) => .error ((PERR.BadInput e.toMessage).intoErr pos)
        | ((_, pos), _) =>
          .error ((PERR.MissingToken "in" "after the iteration variable").intoErr pos)
      match inRes with
      | .error e => .error e
      | .ok input =>
        match ensureNotStatementExpr input "a boolean" with
        | Option.some err => .error err
        | Option.none =>
          match parseExpr cfg fuel input stack allowStmtExpr with
          | .error e => .error e
          | .ok (expr, input, stack) =>
            let prevLen := stack.len
            let stack := stack.push (name, ScopeEntryType.Normal)
            match parseBlock cfg fuel input stack true allowStmtExpr with
            | .error e => .error e
            | .ok (body, input, stack) =>
              .ok (.For (name, expr, body), input, stack.truncate prevLen)

/-- parser.rs `parse_let`. -/
def parseLet (cfg : Config) : Nat → Input → Stack → ScopeEntryType → Bool → StmtRes
  | 0, _, _, _, _ => .error fuelError
  | fuel + 1, input, stack, varType, allowStmtExpr =>
    -- let/const... (specified in `varType`)
    let (_, input) := nextInput input
    let nameRes : Except ParseError ((String × Position) × Input) :=
      match nextInput input with
      | ((Token.Identifier s, pos), input) => .ok ((s, pos), input)
      | ((Token.LexError e, pos), _) => .error ((PERR.BadInput e.toMessage).intoErr pos)
      | ((_, pos), _) => .error (PERR.VariableExpected.intoErr pos)
    match nameRes with
    | .error e => .error e
    | .ok ((name, pos), input) =>
      match matchToken input Token.Equals with
      | (true, input) =>
        (match parseExpr cfg fuel input stack allowStmtExpr with
         | .error e => .error e
         | .ok (initValue, input, stack) =>
           match varType with
           -- let name = expr
           | .Normal =>
             .ok (.Let ((name, pos), Option.some initValue), input,
               stack.push (name, ScopeEntryType.Normal))
           -- const name = { expr:constant }
           | .Constant =>
             if initValue.is_constant then
               .ok (.Const ((name, pos), initValue), input,
                 stack.push (name, ScopeEntryType.Constant))
             else
               -- const name = expr - error
               .error ((PERR.ForbiddenConstantExpr name).intoErr initValue.position)
           -- Variable cannot be a module (source: unreachable)
           | .Module =>
             .error ((PERR.BadInput "unreachable: module variable definition").intoErr pos))
      | (false, input) =>
        match varType with
        | .Normal =>
          .ok (.Let ((name, pos), Option.none), input, stack.push (name, ScopeEntryType.Normal))
        | .Constant =>
          .ok (.Const ((name, pos), .Unit pos), input, stack.push (name, ScopeEntryType.Constant))
        -- Variable cannot be a module (source: unreachable)
        | .Module =>
          .error ((PERR.BadInput "unreachable: module variable definition").intoErr pos)

/-- parser.rs `parse_import`. -/
def parseImport (cfg : Config) : Nat → Input → Stack → Bool → StmtRes
  | 0, _, _, _ => .error fuelError
  | fuel + 1, input, stack, allowStmtExpr =>
    let (pos, input) := eatToken input Token.Import
    match parseExpr cfg fuel input stack allowStmtExpr with
    | .error e => .error e
    | .ok (expr, input, stack) =>
      let asRes : Except ParseError Input :=
        match nextInput input with
        | ((Token.As, _), input) => .ok input
        | ((_, pos2), _) =>
          .error ((PERR.MissingToken "as" "in this import statement").intoErr pos2)
      match asRes with
      | .error e => .error e
      | .ok input =>
        match nextInput input with
        | ((Token.Identifier s, _), input) =>
          .ok (.Import (expr, (s, pos)), input, stack.push (s, ScopeEntryType.Module))
        | ((Token.LexError e, pos2), _) => .error ((PERR.BadInput e.toMessage).intoErr pos2)
        | ((_, pos2), _) => .error (PERR.VariableExpected.intoErr pos2)

/-- parser.rs `parse_block`. -/
def parseBlock (cfg : Config) : Nat → Input → Stack → Bool → Bool → StmtRes
  | 0, _, _, _, _ => .error fuelError
  | fuel + 1, input, stack, breakable, allowStmtExpr =>
    -- Must start with {
    match nextInput input with
    | ((Token.LeftBrace, pos), input) =>
      parseBlockLoop cfg fuel input stack [] pos (stack.len) breakable allowStmtExpr
    | ((Token.LexError e, pos), _) => .error ((PERR.BadInput e.toMessage).intoErr pos)
    | ((_, pos), _) =>
      .error ((PERR.MissingToken "\x7b" "to start a statement block").intoErr pos)

/-- The statement loop of parser.rs `parse_block`. -/
def parseBlockLoop (cfg : Config) :
    Nat → Input → Stack → List Stmt → Position → Nat → Bool → Bool → StmtRes
  | 0, _, _, _, _, _, _, _ => .error fuelError
  | fuel + 1, input, stack, statements, pos, prevLen, breakable, allowStmtExpr =>
    match matchToken input Token.RightBrace with
    | (true, input) => .ok (.Block (statements, pos), input, stack.truncate prevLen)
    | (false, input) =>
      -- Parse statements inside the block
      match parseStmt cfg fuel input stack breakable false allowStmtExpr with
      | .error e => .error e
      | .ok (stmt, input, stack) =>
        -- See if it needs a terminating semicolon
        let needSemicolon := !stmt.is_self_terminated
        let statements := statements ++ [stmt]
        match peekInput input with
        -- { ... stmt }
        | (Token.RightBrace, _) =>
          let (_, input) := eatToken input Token.RightBrace
          .ok (.Block (statements, pos), input, stack.truncate prevLen)
        -- { ... stmt; } or { ... { stmt } ; }
        | (Token.SemiColon, _) =>
          if needSemicolon then
            let (_, input) := eatToken input Token.SemiColon
            parseBlockLoop cfg fuel input stack statements pos prevLen breakable allowStmtExpr
          else
            parseBlockLoop cfg fuel input stack statements pos prevLen breakable allowStmtExpr
        | (t, pos2) =>
          -- { ... { stmt } ??? : a self-terminated statement needs no separator
          if !needSemicolon then
            parseBlockLoop cfg fuel input stack statements pos prevLen breakable allowStmtExpr
          else
            match t with
            | Token.LexError e => .error ((PERR.BadInput e.toMessage).intoErr pos2)
            -- Semicolons are not optional between statements
            | _ => .error ((PERR.MissingToken ";" "to terminate this statement").intoErr pos2)

/-- parser.rs `parse_expr_stmt`. -/
def parseExprStmt (cfg : Config) : Nat → Input → Stack → Bool → StmtRes
  | 0, _, _, _ => .error fuelError
  | fuel + 1, input, stack, allowStmtExpr =>
    match parseExpr cfg fuel input stack allowStmtExpr with
    | .error e => .error e
    | .ok (expr, input, stack) =>
      match parseOpAssignmentStmt cfg fuel input stack expr allowStmtExpr with
      | .error e => .error e
      | .ok (expr, input, stack) => .ok (.Expr expr, input, stack)

/-- parser.rs `parse_stmt`. -/
def parseStmt (cfg : Config) : Nat → Input → Stack → Bool → Bool → Bool → StmtRes
  | 0, _, _, _, _, _ => .error fuelError
  | fuel + 1, input, stack, breakable, isGlobal, allowStmtExpr =>
    match peekInput input with
    | (Token.EOF, pos) => .ok (.Noop pos, input, stack)
    -- Semicolon - empty statement
    | (Token.SemiColon, pos) => .ok (.Noop pos, input, stack)
    | (Token.LeftBrace, _) => parseBlock cfg fuel input stack breakable allowStmtExpr
    -- fn ...
    | (Token.Fn, pos) =>
      if !isGlobal then .error (PERR.WrongFnDefinition.intoErr pos)
      -- Global function definitions are intercepted by parse_global_level;
      -- the source is `unreachable!()` here.
      else .error ((PERR.BadInput "unreachable: global fn in parse_stmt").intoErr pos)
    | (Token.If, _) => parseIf cfg fuel input stack breakable allowStmtExpr
    | (Token.While, _) => parseWhile cfg fuel input stack allowStmtExpr
    | (Token.Loop, _) => parseLoop cfg fuel input stack allowStmtExpr
    | (Token.For, _) => parseFor cfg fuel input stack allowStmtExpr
    | (Token.Continue, pos) =>
      if breakable then
        let (pos, input) := eatToken input Token.Continue
        .ok (.Continue pos, input, stack)
      else .error (PERR.LoopBreak.intoErr pos)
    | (Token.Break, pos) =>
      if breakable then
        let (pos, input) := eatToken input Token.Break
        .ok (.Break pos, input, stack)
      else .error (PERR.LoopBreak.intoErr pos)
    | (Token.Return, pos) =>
      parseReturnBody cfg fuel input stack ReturnType.Return pos allowStmtExpr
    | (Token.Throw, pos) =>
      parseReturnBody cfg fuel input stack ReturnType.Exception pos allowStmtExpr
    | (Token.Let, _) => parseLet cfg fuel input stack ScopeEntryType.Normal allowStmtExpr
    | (Token.Const, _) => parseLet cfg fuel input stack ScopeEntryType.Constant allowStmtExpr
    | (Token.Import, _) => parseImport cfg fuel input stack allowStmtExpr
    | (Token.Export, pos) =>
      if !isGlobal then .error (PERR.WrongExport.intoErr pos)
      else
        match parseExport fuel input with
        | .error e => .error e
        | .ok (stmt, input) => .ok (stmt, input, stack)
    | _ => parseExprStmt cfg fuel input stack allowStmtExpr

/-- The `return`/`throw` arm of parser.rs `parse_stmt` (after the keyword
is consumed; `pos` is the keyword's position). -/
def parseReturnBody (cfg : Config) :
    Nat → Input → Stack → ReturnType → Position → Bool → StmtRes
  | 0, _, _, _, _, _ => .error fuelError
  | fuel + 1, input, stack, returnType, pos, allowStmtExpr =>
    let (_, input) := nextInput input
    match peekInput input with
    -- `return`/`throw` at <EOF>
    | (Token.EOF, eofPos) =>
      .ok (.ReturnWithVal ((returnType, eofPos), Option.none), input, stack)
    -- `return;` or `throw;`
    | (Token.SemiColon, _) =>
      .ok (.ReturnWithVal ((returnType, pos), Option.none), input, stack)
    -- `return` or `throw` with expression
    | _ =>
      match parseExpr cfg fuel input stack allowStmtExpr with
      | .error e => .error e
      | .ok (expr, input, stack) =>
        .ok (.ReturnWithVal ((returnType, expr.position), Option.some expr), input, stack)

/-- parser.rs `parse_fn`. -/
def parseFn (cfg : Config) :
    Nat → Input → Stack → FnAccess → Bool → Except ParseError (FnDef × Input × Stack)
  | 0, _, _, _, _ => .error fuelError
  | fuel + 1, input, stack, access, allowStmtExpr =>
    let (pos, input) := eatToken input Token.Fn
    let nameRes : Except ParseError (String × Input) :=
      match nextInput input with
      | ((Token.Identifier s, _), input) => .ok (s, input)
      | ((_, npos), _) => .error (PERR.FnMissingName.intoErr npos)
    match nameRes with
    | .error e => .error e
    | .ok (name, input) =>
      match peekInput input with
      | (Token.LeftParen, _) =>
        let (_, input) := eatToken input Token.LeftParen
        let paramsRes : Except ParseError (List (String × Position) × Input × Stack) :=
          match matchToken input Token.RightParen with
          | (true, input) => .ok ([], input, stack)
          | (false, input) => parseFnParamsLoop cfg fuel input stack name []
        match paramsRes with
        | .error e => .error e
        | .ok (params, input, stack) =>
          -- Check for duplicating parameters
          match findDup params with
          | Option.some (p, dupPos) =>
            .error ((PERR.FnDuplicatedParam name p).intoErr dupPos)
          | Option.none =>
            -- Parse function body
            match peekInput input with
            | (Token.LeftBrace, _) =>
              (match parseBlock cfg fuel input stack false allowStmtExpr with
               | .error e => .error e
               | .ok (body, input, stack) =>
                 .ok ({ name := name, access := access, params := params.map (·.1),
                        body := body, pos := pos }, input, stack))
            | (_, bpos) => .error ((PERR.FnMissingBody name).intoErr bpos)
      | (_, ppos) => .error ((PERR.FnMissingParams name).intoErr ppos)

/-- The parameter loop of parser.rs `parse_fn`. -/
def parseFnParamsLoop (cfg : Config) :
    Nat → Input → Stack → String → List (String × Position) →
    Except ParseError (List (String × Position) × Input × Stack)
  | 0, _, _, _, _ => .error fuelError
  | fuel + 1, input, stack, name, params =>
    match nextInput input with
    | ((Token.Identifier s, ppos), input) =>
      let stack := stack.push (s, ScopeEntryType.Normal)
      let params := params ++ [(s, ppos)]
      (match nextInput input with
       | ((Token.RightParen, _), input) => .ok (params, input, stack)
       | ((Token.Comma, _), input) => parseFnParamsLoop cfg fuel input stack name params
       | ((Token.Identifier _, p2), _) =>
         .error ((PERR.MissingToken ","
           ("to separate the parameters of function '" ++ name ++ "'")).intoErr p2)
       | ((Token.LexError e, p2), _) => .error ((PERR.BadInput e.toMessage).intoErr p2)
       | ((_, p2), _) =>
         .error ((PERR.MissingToken ","
           ("to separate the parameters of function '" ++ name ++ "'")).intoErr p2))
    | ((Token.LexError e, ppos), _) => .error ((PERR.BadInput e.toMessage).intoErr ppos)
    | ((_, ppos), _) =>
      .error ((PERR.MissingToken ")"
        ("to close the parameters list of function '" ++ name ++ "'")).intoErr ppos)

/-- parser.rs `parse_global_level`. -/
def parseGlobalLevel (cfg : Config) :
    Nat → Input → Except ParseError (List Stmt × List (FnHash × FnDef))
  | 0, _ => .error fuelError
  | fuel + 1, input => parseGlobalLevelLoop cfg fuel input Stack.new [] []

/-- The statement loop of parser.rs `parse_global_level`. Function
definitions are collected into the function map keyed by the
no-qualifier hash of (name, parameter count); each is parsed against a
fresh `Stack::new()` while the global statement stack is left alone. -/
def parseGlobalLevelLoop (cfg : Config) :
    Nat → Input → Stack → List Stmt → List (FnHash × FnDef) →
    Except ParseError (List Stmt × List (FnHash × FnDef))
  | 0, _, _, _, _ => .error fuelError
  | fuel + 1, input, stack, statements, functions =>
    if (peekInput input).1.isEOF then .ok (statements, functions)
    else
      -- Collect all the function definitions
      let (isPrivate, input) := matchToken input Token.Private
      let access := if isPrivate then FnAccess.Private else FnAccess.Public
      let mustBeFn := isPrivate
      match peekInput input with
      | (Token.Fn, _) =>
        (match parseFn cfg fuel input Stack.new access true with
         | .error e => .error e
         | .ok (func, input, _) =>
           -- Qualifiers (none) + function name + argument `TypeId`'s
           let hash := calc_fn_hash [] func.name func.params.length
           parseGlobalLevelLoop cfg fuel input stack statements
             (insertFnMap functions hash func))
      | (_, pos) =>
        if mustBeFn then
          .error ((PERR.MissingToken "fn"
            ("following '" ++ Token.Private.lexeme ++ "'")).intoErr pos)
        else
          -- Actual statement
          match parseStmt cfg fuel input stack false true true with
          | .error e => .error e
          | .ok (stmt, input, stack) =>
            let needSemicolon := !stmt.is_self_terminated
            let statements := statements ++ [stmt]
            match peekInput input with
            -- EOF
            | (Token.EOF, _) => .ok (statements, functions)
            -- stmt ;
            | (Token.SemiColon, _) =>
              if needSemicolon then
                let (_, input) := eatToken input Token.SemiColon
                parseGlobalLevelLoop cfg fuel input stack statements functions
              else
                parseGlobalLevelLoop cfg fuel input stack statements functions
            | (t, pos2) =>
              -- { stmt } ???
              if !needSemicolon then
                parseGlobalLevelLoop cfg fuel input stack statements functions
              else
                match t with
                | Token.LexError e => .error ((PERR.BadInput e.toMessage).intoErr pos2)
                -- Semicolons are not optional between statements
                | _ =>
                  .error ((PERR.MissingToken ";" "to terminate this statement").intoErr pos2)

end

/-! ## The AST container and merging (parser.rs `AST`, engine.rs
`FunctionsLib` modelled) -/

/-- Modelled from the spec: engine.rs `FunctionsLib` is not under src/.
The spec (sections 3 and 4.3) describes the function library as a mapping
of script-defined functions keyed by name and parameter count, with
right-hand overrides on merge. Modelled as the list of definitions,
looked up by (name, arity). -/
abbrev FunctionsLib := List FnDef

/-- Lookup by name and parameter count (the `(name, arity)` key of the
spec). -/
def FunctionsLib.lookup (lib : FunctionsLib) (name : String) (arity : Nat) : Option FnDef :=
  List.find? (fun f => f.name == name && f.params.length == arity) lib

/-- Modelled from the spec: `FunctionsLib::merge` — "the union with
right-hand overrides at equal `(name, arity)`": definitions of the first
library whose key also occurs in the second are dropped; the second
library is kept whole. -/
def FunctionsLib.merge (a b : FunctionsLib) : FunctionsLib :=
  List.filter (fun f =>
    !(List.any b (fun g => g.name == f.name && g.params.length == f.params.length))) a ++ b

/-- parser.rs `AST`: global statements plus the shared function library. -/
structure AST where
  statements : List Stmt
  fnLib : FunctionsLib

/-- parser.rs `AST::new`. -/
def AST.new (statements : List Stmt) (fnLib : FunctionsLib) : AST := ⟨statements, fnLib⟩

/-- parser.rs `AST::merge`: both inputs are read only (the source clones
out of shared references); the statement list is combined by the
four-way emptiness match of the source and the libraries by
`FunctionsLib::merge`. -/
def AST.merge (a other : AST) : AST :=
  let ast : List Stmt :=
    match a.statements.isEmpty, other.statements.isEmpty with
    | false, false => a.statements ++ other.statements
    | false, true => a.statements
    | true, false => other.statements
    | true, true => []
  AST.new ast (FunctionsLib.merge a.fnLib other.fnLib)

/-! ## Evaluation errors (result.rs, modelled) -/

/-- Modelled from the spec (section 4.5): result.rs is not under src/;
these are the `EvalAltResult` variants the embedded components
construct. -/
inductive EvalAltResult where
  | ErrorFunctionArgsMismatch (name : String) (expected : Nat) (got : Nat) (pos : Position)
  | ErrorArithmetic (msg : String) (pos : Position)
deriving DecidableEq, Repr

/-- `EvalAltResult::set_position`. -/
def EvalAltResult.set_position : EvalAltResult → Position → EvalAltResult
  | .ErrorFunctionArgsMismatch n e g _, pos => .ErrorFunctionArgsMismatch n e g pos
  | .ErrorArithmetic m _, pos => .ErrorArithmetic m pos

/-! ## The registration facade (fn_register.rs)

The macro `def_register!` expands one adapter per arity (up to 20); the
spec (section 4.3) captures the contract once, arity-parametrically, which
is how it is embedded here: the declared parameter type list plays the
role of the `TypeId::of::<T>()` sequence, and the wrapped callable
receives the downcast argument list. -/

/-- What an adapter invocation can do: return a value, return an
evaluation error, or abort the process. The source's
`downcast_mut::<T>().unwrap()` panics when the downcast fails; that panic
is the `panicked` outcome. -/
inductive FnOutcome where
  | ok (value : Dynamic)
  | err (e : EvalAltResult)
  | panicked
deriving DecidableEq, Repr

/-- The per-slot downcast sequence of the adapters: every argument is
downcast to its declared parameter type in order; a single failure aborts
(the source unwraps each `downcast_mut`). -/
def downcastAll : List Nat → List Dynamic → Option (List Dynamic)
  | [], [] => Option.some []
  | t :: ts, a :: rest =>
    if a.type_id == t then (downcastAll ts rest).map (a :: ·) else Option.none
  | _, _ => Option.none

/-- fn_register.rs `RegisterFn::register_fn`: the adapter wrapped around
an infallible native of declared parameter types `params`. It checks the
argument count first (`ErrorFunctionArgsMismatch(name, N, got, pos)`),
then downcasts every slot — panicking on a type mismatch — and finally
boxes the native's return value. -/
def registerFnAdapter (fnName : String) (params : List Nat)
    (f : List Dynamic → Dynamic) (args : List Dynamic) (pos : Position) : FnOutcome :=
  if args.length ≠ params.length then
    .err (.ErrorFunctionArgsMismatch fnName params.length args.length pos)
  else
    match downcastAll params args with
    | Option.some vals => .ok (f vals)
    | Option.none => .panicked

/-- fn_register.rs `RegisterResultFn::register_result_fn`: as
`register_fn`, but the native returns a result whose error gets the
call-site position stamped on before propagation. -/
def registerResultFnAdapter (fnName : String) (params : List Nat)
    (f : List Dynamic → Except EvalAltResult Dynamic) (args : List Dynamic)
    (pos : Position) : FnOutcome :=
  if args.length ≠ params.length then
    .err (.ErrorFunctionArgsMismatch fnName params.length args.length pos)
  else
    match downcastAll params args with
    | Option.some vals =>
      (match f vals with
       | .ok v => .ok v
       | .error e => .err (e.set_position pos))
    | Option.none => .panicked

/-! ## The basic time package (packages/time_basic.rs)

An `Instant` is a monotonic time point; modelled as nanoseconds on the
monotonic clock, so that `Duration = later - earlier` is the nanosecond
difference. `Duration::as_secs_f64` is modelled as the exact rational
seconds; the f64 negation the source applies is exact, and both branches
apply `as_secs_f64` to the same nonnegative duration, so the sign and
antisymmetry facts proved below transfer verbatim to the f64 computation.
The default build has floats enabled, so the `no_float` integer paths of
the source are compiled out. -/

/-- `Duration::as_secs_f64` on a nanosecond count. -/
def durationAsSecs (nanos : Nat) : Rat := (nanos : Rat) / 1000000000

/-- time_basic.rs: the registered timestamp `-` operator
(`|ts1: Instant, ts2: Instant|`): if `ts2 > ts1` the negated elapsed
seconds of `ts2 - ts1`, otherwise the elapsed seconds of `ts1 - ts2`. -/
def timestampSub (ts1 ts2 : Nat) : Except EvalAltResult Rat :=
  if ts2 > ts1 then .ok (-(durationAsSecs (ts2 - ts1)))
  else .ok (durationAsSecs (ts1 - ts2))

/-- The value of a `timestampSub` call (total: the float branch of the
source always succeeds). -/
def timestampSubVal (ts1 ts2 : Nat) : Rat :=
  match timestampSub ts1 ts2 with
  | .ok q => q
  | .error _ => 0

/-! ## Invariant predicates over parsed trees

`exprHashOk` is the amended hash invariant: every `FnCall` node's cached
hash is either the hash of (its own qualifier path, its name, one
placeholder per argument) or the no-qualifier hash at one placeholder more
than its argument count (the form produced for unary-operator calls and
for method calls, which carry an implicit extra slot).

`exprHashStrict` is the claim as written: every `FnCall` node's cached
hash is the hash of (qualifier path, name, exactly one placeholder per
argument).

`exprPropOk` is the amended `Property`-placement invariant: a `Property`
node occurs only inside the right-hand subtree of a `Dot` or `Index`
node. `exprPropStrict` is the claim as written: every `Property` node is
the immediate right child of a `Dot` or `Index` node. -/

/-- The per-node hash admissibility of a `FnCall` payload (amended
form). -/
def fnCallHashOk
    (x : (String × Position) × Option ModuleRef × FnHash × List Expr × Option Dynamic) : Bool :=
  x.2.2.1 == calc_fn_hash (modNames x.2.1) x.1.1 x.2.2.2.1.length
    || x.2.2.1 == calc_fn_hash [] x.1.1 (x.2.2.2.1.length + 1)

/-- The per-node hash claim as written: placeholders equal the argument
count. -/
def fnCallHashStrict
    (x : (String × Position) × Option ModuleRef × FnHash × List Expr × Option Dynamic) : Bool :=
  x.2.2.1 == calc_fn_hash (modNames x.2.1) x.1.1 x.2.2.2.1.length

mutual

/-- Every `FnCall` node in the expression satisfies `fnCallHashOk`. -/
def exprHashOk : Expr → Bool
  | .FnCall x => fnCallHashOk x && exprListHashOk x.2.2.2.1
  | .Assignment x | .Dot x | .Index x | .In x | .And x | .Or x =>
    exprHashOk x.1 && exprHashOk x.2.1
  | .Array x => exprListHashOk x.1
  | .Map x => mapEntriesHashOk x.1
  | .Stmt x => stmtHashOk x.1
  | _ => true

def exprListHashOk : List Expr → Bool
  | [] => true
  | e :: rest => exprHashOk e && exprListHashOk rest

def mapEntriesHashOk : List ((String × Position) × Expr) → Bool
  | [] => true
  | (_, e) :: rest => exprHashOk e && mapEntriesHashOk rest

def optExprHashOk : Option Expr → Bool
  | Option.none => true
  | Option.some e => exprHashOk e

/-- Every `FnCall` node in the statement satisfies `fnCallHashOk`. -/
def stmtHashOk : Stmt → Bool
  | .Noop _ | .Continue _ | .Break _ | .Export _ => true
  | .IfThenElse x => exprHashOk x.1 && stmtHashOk x.2.1 && optStmtHashOk x.2.2
  | .While x => exprHashOk x.1 && stmtHashOk x.2
  | .Loop body => stmtHashOk body
  | .For x => exprHashOk x.2.1 && stmtHashOk x.2.2
  | .Let x => optExprHashOk x.2
  | .Const x => exprHashOk x.2
  | .Block x => stmtListHashOk x.1
  | .Expr e => exprHashOk e
  | .ReturnWithVal x => optExprHashOk x.2
  | .Import x => exprHashOk x.1

def optStmtHashOk : Option Stmt → Bool
  | Option.none => true
  | Option.some s => stmtHashOk s

def stmtListHashOk : List Stmt → Bool
  | [] => true
  | s :: rest => stmtHashOk s && stmtListHashOk rest

end

mutual

/-- Every `FnCall` node in the expression satisfies `fnCallHashStrict`
(the claim as written). -/
def exprHashStrict : Expr → Bool
  | .FnCall x => fnCallHashStrict x && exprListHashStrict x.2.2.2.1
  | .Assignment x | .Dot x | .Index x | .In x | .And x | .Or x =>
    exprHashStrict x.1 && exprHashStrict x.2.1
  | .Array x => exprListHashStrict x.1
  | .Map x => mapEntriesHashStrict x.1
  | .Stmt x => stmtHashStrict x.1
  | _ => true

def exprListHashStrict : List Expr → Bool
  | [] => true
  | e :: rest => exprHashStrict e && exprListHashStrict rest

def mapEntriesHashStrict : List ((String × Position) × Expr) → Bool
  | [] => true
  | (_, e) :: rest => exprHashStrict e && mapEntriesHashStrict rest

def optExprHashStrict : Option Expr → Bool
  | Option.none => true
  | Option.some e => exprHashStrict e

def stmtHashStrict : Stmt → Bool
  | .Noop _ | .Continue _ | .Break _ | .Export _ => true
  | .IfThenElse x => exprHashStrict x.1 && stmtHashStrict x.2.1 && optStmtHashStrict x.2.2
  | .While x => exprHashStrict x.1 && stmtHashStrict x.2
  | .Loop body => stmtHashStrict body
  | .For x => exprHashStrict x.2.1 && stmtHashStrict x.2.2
  | .Let x => optExprHashStrict x.2
  | .Const x => exprHashStrict x.2
  | .Block x => stmtListHashStrict x.1
  | .Expr e => exprHashStrict e
  | .ReturnWithVal x => optExprHashStrict x.2
  | .Import x => exprHashStrict x.1

def optStmtHashStrict : Option Stmt → Bool
  | Option.none => true
  | Option.some s => stmtHashStrict s

def stmtListHashStrict : List Stmt → Bool
  | [] => true
  | s :: rest => stmtHashStrict s && stmtListHashStrict rest

end

mutual

/-- No `Property` node occurs outside the right-hand subtree of a `Dot`
or `Index` node (the right subtrees themselves are unconstrained): the
amended placement invariant. -/
def exprPropOk : Expr → Bool
  | .Property _ => false
  | .Dot x | .Index x => exprPropOk x.1
  | .Assignment x | .In x | .And x | .Or x => exprPropOk x.1 && exprPropOk x.2.1
  | .FnCall x => exprListPropOk x.2.2.2.1
  | .Array x => exprListPropOk x.1
  | .Map x => mapEntriesPropOk x.1
  | .Stmt x => stmtPropOk x.1
  | _ => true

def exprListPropOk : List Expr → Bool
  | [] => true
  | e :: rest => exprPropOk e && exprListPropOk rest

def mapEntriesPropOk : List ((String × Position) × Expr) → Bool
  | [] => true
  | (_, e) :: rest => exprPropOk e && mapEntriesPropOk rest

def optExprPropOk : Option Expr → Bool
  | Option.none => true
  | Option.some e => exprPropOk e

def stmtPropOk : Stmt → Bool
  | .Noop _ | .Continue _ | .Break _ | .Export _ => true
  | .IfThenElse x => exprPropOk x.1 && stmtPropOk x.2.1 && optStmtPropOk x.2.2
  | .While x => exprPropOk x.1 && stmtPropOk x.2
  | .Loop body => stmtPropOk body
  | .For x => exprPropOk x.2.1 && stmtPropOk x.2.2
  | .Let x => optExprPropOk x.2
  | .Const x => exprPropOk x.2
  | .Block x => stmtListPropOk x.1
  | .Expr e => exprPropOk e
  | .ReturnWithVal x => optExprPropOk x.2
  | .Import x => exprPropOk x.1

def optStmtPropOk : Option Stmt → Bool
  | Option.none => true
  | Option.some s => stmtPropOk s

def stmtListPropOk : List Stmt → Bool
  | [] => true
  | s :: rest => stmtPropOk s && stmtListPropOk rest

end

mutual

/-- Every `Property` node is the immediate right child of a `Dot` or
`Index` node (the claim as written): the right child of a `Dot`/`Index`
may itself be a `Property`; everything else is checked recursively. -/
def exprPropStrict : Expr → Bool
  | .Property _ => false
  | .Dot x | .Index x =>
    exprPropStrict x.1 &&
      (match x.2.1 with
       | .Property _ => true
       | _ => exprPropStrict x.2.1)
  | .Assignment x | .In x | .And x | .Or x => exprPropStrict x.1 && exprPropStrict x.2.1
  | .FnCall x => exprListPropStrict x.2.2.2.1
  | .Array x => exprListPropStrict x.1
  | .Map x => mapEntriesPropStrict x.1
  | .Stmt x => stmtPropStrict x.1
  | _ => true

def exprListPropStrict : List Expr → Bool
  | [] => true
  | e :: rest => exprPropStrict e && exprListPropStrict rest

def mapEntriesPropStrict : List ((String × Position) × Expr) → Bool
  | [] => true
  | (_, e) :: rest => exprPropStrict e && mapEntriesPropStrict rest

def optExprPropStrict : Option Expr → Bool
  | Option.none => true
  | Option.some e => exprPropStrict e

def stmtPropStrict : Stmt → Bool
  | .Noop _ | .Continue _ | .Break _ | .Export _ => true
  | .IfThenElse x => exprPropStrict x.1 && stmtPropStrict x.2.1 && optStmtPropStrict x.2.2
  | .While x => exprPropStrict x.1 && stmtPropStrict x.2
  | .Loop body => stmtPropStrict body
  | .For x => exprPropStrict x.2.1 && stmtPropStrict x.2.2
  | .Let x => optExprPropStrict x.2
  | .Const x => exprPropStrict x.2
  | .Block x => stmtListPropStrict x.1
  | .Expr e => exprPropStrict e
  | .ReturnWithVal x => optExprPropStrict x.2
  | .Import x => exprPropStrict x.1

def optStmtPropStrict : Option Stmt → Bool
  | Option.none => true
  | Option.some s => stmtPropStrict s

def stmtListPropStrict : List Stmt → Bool
  | [] => true
  | s :: rest => stmtPropStrict s && stmtListPropStrict rest

end

/-- The combined structural invariant carried through the parser
induction. -/
def exprInv (e : Expr) : Bool := exprHashOk e && exprPropOk e

/-- The combined structural invariant for statements. -/
def stmtInv (s : Stmt) : Bool := stmtHashOk s && stmtPropOk s

/-! ## Proof infrastructure: result invariants and concrete token
streams used by the verification theorems below -/

/-- A parser result whose payload expression satisfies the combined
structural invariant. -/
def ExprResInv (r : ExprRes) : Prop := ∀ out, r = .ok out → exprInv out.1 = true
def StmtResInv (r : StmtRes) : Prop := ∀ out, r = .ok out → stmtInv out.1 = true
def FnResInv (r : Except ParseError (FnDef × Input × Stack)) : Prop :=
  ∀ out, r = .ok out → stmtInv out.1.body = true
def GlobResInv (r : Except ParseError (List Stmt × List (FnHash × FnDef))) : Prop :=
  ∀ out, r = .ok out →
    (∀ s ∈ out.1, stmtInv s = true) ∧ (∀ kv ∈ out.2, stmtInv kv.2.body = true)


def defaultConfig : Config := ⟨false⟩

def pos0 : Position := Position.none

def bangToks : Input :=
  [(Token.Bang, pos0), (Token.Identifier "x", pos0), (Token.SemiColon, pos0), (Token.EOF, pos0)]

def fnWitToks : Input :=
  [(Token.Identifier "x", pos0), (Token.Period, pos0), (Token.Identifier "f", pos0),
   (Token.LeftParen, pos0), (Token.IntegerConstant 1, pos0), (Token.RightParen, pos0),
   (Token.Plus, pos0), (Token.Identifier "g", pos0), (Token.LeftParen, pos0),
   (Token.IntegerConstant 2, pos0), (Token.RightParen, pos0), (Token.SemiColon, pos0),
   (Token.Fn, pos0), (Token.Identifier "h", pos0), (Token.LeftParen, pos0),
   (Token.Identifier "a", pos0), (Token.RightParen, pos0), (Token.LeftBrace, pos0),
   (Token.Bang, pos0), (Token.Identifier "a", pos0), (Token.RightBrace, pos0), (Token.EOF, pos0)]

def fnWitOut : List Stmt × List (FnHash × FnDef) :=
  (parseGlobalLevel defaultConfig 60 fnWitToks).toOption.getD ([], [])

def dotToks : Input :=
  [(Token.Identifier "a", pos0), (Token.Period, pos0), (Token.Identifier "b", pos0),
   (Token.Period, pos0), (Token.Identifier "c", pos0), (Token.SemiColon, pos0), (Token.EOF, pos0)]

def dotWitOut : List Stmt × List (FnHash × FnDef) :=
  (parseGlobalLevel defaultConfig 30 dotToks).toOption.getD ([], [])

def c2Toks : Input :=
  [(Token.Const, pos0), (Token.Identifier "x", pos0), (Token.Equals, pos0),
   (Token.IntegerConstant 123, pos0), (Token.SemiColon, pos0),
   (Token.Identifier "x", pos0), (Token.Equals, pos0), (Token.IntegerConstant 42, pos0),
   (Token.SemiColon, pos0), (Token.EOF, pos0)]

def constFnToks : Input :=
  [(Token.Const, pos0), (Token.Identifier "x", pos0), (Token.Equals, pos0),
   (Token.IntegerConstant 123, pos0), (Token.SemiColon, pos0),
   (Token.Fn, pos0), (Token.Identifier "f", pos0), (Token.LeftParen, pos0), (Token.RightParen, pos0),
   (Token.LeftBrace, pos0), (Token.Identifier "x", pos0), (Token.Equals, pos0),
   (Token.IntegerConstant 42, pos0), (Token.SemiColon, pos0), (Token.RightBrace, pos0),
   (Token.Identifier "x", pos0), (Token.SemiColon, pos0), (Token.EOF, pos0)]

def negIdxToks : Input :=
  [(Token.IntegerConstant (-1), pos0), (Token.RightBracket, pos0), (Token.EOF, pos0)]


/-! ## Theorems -/

set_option maxHeartbeats 4000000 in
/-- One-step unfolding equation of `make_dot_expr` (it recurses through
the left operand's indexing chain, so it is compiled by well-founded
recursion; this is its defining match, for use in proofs). -/
theorem make_dot_expr_unfold : ∀ (lhs rhs : Expr) (op_pos : Position) (is_index : Bool),
    make_dot_expr lhs rhs op_pos is_index =
      match lhs, rhs with
      | .Index x, rhs =>
        (match make_dot_expr x.2.1 rhs op_pos true with
         | .ok e => .ok (.Index (x.1, e, x.2.2))
         | .error err => .error err)
      | lhs, .Variable x =>
        (match x.2.1 with
         | Option.none =>
           let name := x.1.1
           let pos := x.1.2
           let lhs := if is_index then lhs.into_property else lhs
           let getter := make_getter name
           let setter := make_setter name
           .ok (.Dot (lhs, .Property ((name, getter, setter), pos), op_pos))
         | Option.some m =>
           .error (PERR.PropertyExpected.intoErr (m.path.headD ("", Position.none)).2))
      | lhs, .Property x =>
        let lhs := if is_index then lhs.into_property else lhs
        .ok (.Dot (lhs, .Property x, op_pos))
      | lhs, .Dot x =>
        .ok (.Dot (lhs, .Dot (x.1.into_property, x.2.1.into_property, x.2.2), op_pos))
      | lhs, .Index x =>
        .ok (.Dot (lhs, .Index (x.1.into_property, x.2.1.into_property, x.2.2), op_pos))
      | lhs, rhs => .ok (.Dot (lhs, rhs.into_property, op_pos)) :=
  make_dot_expr.eq_def

-- conversions between recursive Bool list predicates and ∀-membership
theorem exprListHashOk_iff (l : List Expr) :
    exprListHashOk l = true ↔ ∀ e ∈ l, exprHashOk e = true := by
  induction l with
  | nil => simp [exprListHashOk]
  | cons e rest ih => simp [exprListHashOk, Bool.and_eq_true, ih]

theorem mapEntriesHashOk_iff (l : List ((String × Position) × Expr)) :
    mapEntriesHashOk l = true ↔ ∀ kv ∈ l, exprHashOk kv.2 = true := by
  induction l with
  | nil => simp [mapEntriesHashOk]
  | cons kv rest ih =>
    obtain ⟨k, e⟩ := kv
    simp [mapEntriesHashOk, Bool.and_eq_true, ih]

theorem exprListPropOk_iff (l : List Expr) :
    exprListPropOk l = true ↔ ∀ e ∈ l, exprPropOk e = true := by
  induction l with
  | nil => simp [exprListPropOk]
  | cons e rest ih => simp [exprListPropOk, Bool.and_eq_true, ih]

theorem mapEntriesPropOk_iff (l : List ((String × Position) × Expr)) :
    mapEntriesPropOk l = true ↔ ∀ kv ∈ l, exprPropOk kv.2 = true := by
  induction l with
  | nil => simp [mapEntriesPropOk]
  | cons kv rest ih =>
    obtain ⟨k, e⟩ := kv
    simp [mapEntriesPropOk, Bool.and_eq_true, ih]

theorem stmtListHashOk_iff (l : List Stmt) :
    stmtListHashOk l = true ↔ ∀ s ∈ l, stmtHashOk s = true := by
  induction l with
  | nil => simp [stmtListHashOk]
  | cons s rest ih => simp [stmtListHashOk, Bool.and_eq_true, ih]

theorem stmtListPropOk_iff (l : List Stmt) :
    stmtListPropOk l = true ↔ ∀ s ∈ l, stmtPropOk s = true := by
  induction l with
  | nil => simp [stmtListPropOk]
  | cons s rest ih => simp [stmtListPropOk, Bool.and_eq_true, ih]

-- into_property preserves the hash invariant
theorem exprHashOk_into_property (e : Expr) :
    exprHashOk e.into_property = exprHashOk e := by
  unfold Expr.into_property
  split
  · rename_i x
    cases hm : x.2.1 <;> simp [exprHashOk]
  · rfl

-- bumpMethodCallHash
theorem exprHashOk_bump (e : Expr) (h : exprHashOk e = true) :
    exprHashOk (bumpMethodCallHash e) = true := by
  unfold bumpMethodCallHash
  split
  · rename_i x
    simp only [exprHashOk, Bool.and_eq_true] at h ⊢
    exact ⟨by simp [fnCallHashOk], h.2⟩
  · exact h

theorem exprPropOk_bump (e : Expr) :
    exprPropOk (bumpMethodCallHash e) = exprPropOk e := by
  unfold bumpMethodCallHash
  split
  · rename_i x
    simp [exprPropOk]
  · rfl

-- fixRootExpr
theorem exprHashOk_fixRoot (stack : Stack) (e : Expr) :
    exprHashOk (fixRootExpr stack e) = exprHashOk e := by
  unfold fixRootExpr
  split
  · rename_i x
    cases hm : x.2.1 <;> simp [exprHashOk]
  · rfl

theorem exprPropOk_fixRoot (stack : Stack) (e : Expr) :
    exprPropOk (fixRootExpr stack e) = exprPropOk e := by
  unfold fixRootExpr
  split
  · rename_i x
    cases hm : x.2.1 <;> simp [exprPropOk]
  · rfl

-- callHashAndModules: the produced hash is the qualifier+name+argc key
theorem callHashAndModules_spec (stack : Stack) (modules : Option ModuleRef)
    (id : String) (argc : Nat) :
    (callHashAndModules stack modules id argc).1 =
      calc_fn_hash (modNames (callHashAndModules stack modules id argc).2) id argc := by
  cases modules <;>
    simp [callHashAndModules, modNames, ModuleRef.names, ModuleRef.setIndex]

-- make_in_expr shape
theorem make_in_expr_ok (l r : Expr) (p : Position) (e : Expr)
    (h : make_in_expr l r p = .ok e) : e = .In (l, r, p) := by
  unfold make_in_expr at h
  split at h
  · exact absurd h (by simp)
  · injection h with h
    exact h.symm

-- make_assignment_stmt shape
theorem make_assignment_stmt_ok (stack : Stack) (lhs rhs : Expr) (pos : Position) (e : Expr)
    (h : make_assignment_stmt stack lhs rhs pos = .ok e) :
    e = .Assignment (lhs, rhs, pos) := by
  unfold make_assignment_stmt at h
  split at h
  · split at h
    · injection h with h; exact h.symm
    · exact absurd h (by simp)
  · split at h
    · injection h with h; exact h.symm
    · exact absurd h (by simp)
  · split at h
    · injection h with h; exact h.symm
    · exact absurd h (by simp)
  · split at h <;> exact absurd h (by simp)


theorem make_dot_expr_hashOk : ∀ (lhs rhs : Expr) (op_pos : Position) (is_index : Bool),
    ∀ e, make_dot_expr lhs rhs op_pos is_index = .ok e →
    exprHashOk lhs = true → exprHashOk rhs = true → exprHashOk e = true := by
  intro lhs rhs op_pos is_index
  induction lhs, rhs, op_pos, is_index using make_dot_expr.induct with
  | case1 op_pos is_index x rhs e hrec ih =>
    intro e2 h hl hr
    rw [make_dot_expr_unfold] at h
    simp only [hrec] at h
    injection h with h
    subst h
    simp only [exprHashOk, Bool.and_eq_true] at hl ⊢
    exact ⟨hl.1, ih e hrec hl.2 hr⟩
  | case2 op_pos is_index x rhs err hrec ih =>
    intro e2 h hl hr
    rw [make_dot_expr_unfold] at h
    simp only [hrec] at h
    exact absurd h (by simp)
  | case3 op_pos is_index lhs x hne hm =>
    intro e2 h hl hr
    cases lhs <;>
      first
      | (exact absurd rfl (hne _))
      | (rw [make_dot_expr_unfold] at h
         simp only [hm] at h
         injection h with h
         subst h
         cases is_index <;>
           simp_all [exprHashOk, exprHashOk_into_property, Bool.and_eq_true])
  | case4 op_pos is_index lhs x hne m hm =>
    intro e2 h hl hr
    cases lhs <;>
      first
      | (exact absurd rfl (hne _))
      | (rw [make_dot_expr_unfold] at h
         simp only [hm] at h
         exact absurd h (by simp))
  | case5 op_pos is_index lhs x hne =>
    intro e2 h hl hr
    cases lhs <;>
      first
      | (exact absurd rfl (hne _))
      | (rw [make_dot_expr_unfold] at h
         injection h with h
         subst h
         cases is_index <;>
           simp_all [exprHashOk, exprHashOk_into_property, Bool.and_eq_true])
  | case6 op_pos is_index lhs x hne =>
    intro e2 h hl hr
    cases lhs <;>
      first
      | (exact absurd rfl (hne _))
      | (rw [make_dot_expr_unfold] at h
         injection h with h
         subst h
         simp only [exprHashOk, exprHashOk_into_property, Bool.and_eq_true] at hl hr ⊢
         first
         | exact ⟨hl, hr⟩
         | exact hl
         | exact hr
         | trivial
         | simp_all)
  | case7 op_pos is_index lhs x hne =>
    intro e2 h hl hr
    cases lhs <;>
      first
      | (exact absurd rfl (hne _))
      | (rw [make_dot_expr_unfold] at h
         injection h with h
         subst h
         simp only [exprHashOk, exprHashOk_into_property, Bool.and_eq_true] at hl hr ⊢
         first
         | exact ⟨hl, hr⟩
         | exact hl
         | exact hr
         | trivial
         | simp_all)
  | case8 op_pos is_index lhs rhs hneI hneV hneP hneD hneI2 =>
    intro e2 h hl hr
    cases lhs <;>
      first
      | (exact absurd rfl (hneI _))
      | (cases rhs <;>
          first
          | (exact absurd rfl (hneV _))
          | (exact absurd rfl (hneP _))
          | (exact absurd rfl (hneD _))
          | (exact absurd rfl (hneI2 _))
          | (rw [make_dot_expr_unfold] at h
             injection h with h
             subst h
             simp only [exprHashOk, exprHashOk_into_property, Bool.and_eq_true] at hl hr ⊢
             first
             | exact ⟨hl, hr⟩
             | exact hl
             | exact hr
             | trivial
             | simp_all))

-- make_dot_expr preserves the Property-placement invariant at the top
-- level (the recursive call of the Index case lands inside an Index
-- right-hand subtree, which the predicate does not inspect)
set_option maxHeartbeats 3000000 in
theorem make_dot_expr_propOk : ∀ (lhs rhs : Expr) (op_pos : Position) (is_index : Bool),
    is_index = false →
    ∀ e, make_dot_expr lhs rhs op_pos is_index = .ok e →
    exprPropOk lhs = true → exprPropOk e = true := by
  intro lhs rhs op_pos is_index
  induction lhs, rhs, op_pos, is_index using make_dot_expr.induct with
  | case1 op_pos is_index x rhs e hrec ih =>
    intro hfalse e2 h hl
    rw [make_dot_expr_unfold] at h
    simp only [hrec] at h
    injection h with h
    subst h
    simp only [exprPropOk] at hl ⊢
    exact hl
  | case2 op_pos is_index x rhs err hrec ih =>
    intro hfalse e2 h hl
    rw [make_dot_expr_unfold] at h
    simp only [hrec] at h
    exact absurd h (by simp)
  | case3 op_pos is_index lhs x hne hm =>
    intro hfalse e2 h hl
    subst hfalse
    cases lhs <;>
      first
      | (exact absurd rfl (hne _))
      | (rw [make_dot_expr_unfold] at h
         simp only [hm] at h
         injection h with h
         subst h
         simp_all [exprPropOk])
  | case4 op_pos is_index lhs x hne m hm =>
    intro hfalse e2 h hl
    cases lhs <;>
      first
      | (exact absurd rfl (hne _))
      | (rw [make_dot_expr_unfold] at h
         simp only [hm] at h
         exact absurd h (by simp))
  | case5 op_pos is_index lhs x hne =>
    intro hfalse e2 h hl
    subst hfalse
    cases lhs <;>
      first
      | (exact absurd rfl (hne _))
      | (rw [make_dot_expr_unfold] at h
         injection h with h
         subst h
         simp_all [exprPropOk])
  | case6 op_pos is_index lhs x hne =>
    intro hfalse e2 h hl
    cases lhs <;>
      first
      | (exact absurd rfl (hne _))
      | (rw [make_dot_expr_unfold] at h
         injection h with h
         subst h
         simp_all [exprPropOk])
  | case7 op_pos is_index lhs x hne =>
    intro hfalse e2 h hl
    cases lhs <;>
      first
      | (exact absurd rfl (hne _))
      | (rw [make_dot_expr_unfold] at h
         injection h with h
         subst h
         simp_all [exprPropOk])
  | case8 op_pos is_index lhs rhs hneI hneV hneP hneD hneI2 =>
    intro hfalse e2 h hl
    cases lhs <;>
      first
      | (exact absurd rfl (hneI _))
      | (cases rhs <;>
          first
          | (exact absurd rfl (hneV _))
          | (exact absurd rfl (hneP _))
          | (exact absurd rfl (hneD _))
          | (exact absurd rfl (hneI2 _))
          | (rw [make_dot_expr_unfold] at h
             injection h with h
             subst h
             simp_all [exprPropOk]))

-- makeBinaryOpNode preserves the combined invariant
set_option maxHeartbeats 3000000 in
theorem makeBinaryOpNode_inv (opToken : Token) (pos : Position) (lhs rhs : Expr)
    (hl : exprInv lhs = true) (hr : exprInv rhs = true) :
    ∀ e, makeBinaryOpNode opToken pos lhs rhs = .ok e → exprInv e = true := by
  intro e h
  simp only [exprInv, Bool.and_eq_true] at hl hr
  cases opToken <;>
    simp only [makeBinaryOpNode] at h <;>
    first
    | exact Except.noConfusion h
    | (injection h with h
       subst h
       simp only [exprInv, exprHashOk, exprPropOk, fnCallHashOk, exprListHashOk,
         exprListPropOk, modNames, List.length_cons, List.length_nil, beq_self_eq_true,
         hl.1, hl.2, hr.1, hr.2, Bool.and_eq_true, Bool.or_eq_true, Bool.and_self,
         Bool.true_and, Bool.and_true, and_true, true_and, and_self, or_true, true_or,
         Nat.reduceAdd, eq_self_iff_true])
    | (have hIn := make_in_expr_ok lhs rhs pos e h
       subst hIn
       simp only [exprInv, exprHashOk, exprPropOk, hl.1, hl.2, hr.1, hr.2,
         Bool.and_self, Bool.and_true, Bool.true_and])
    | (have hh := make_dot_expr_hashOk lhs (bumpMethodCallHash rhs) pos false e h
         hl.1 (exprHashOk_bump rhs hr.1)
       have hp := make_dot_expr_propOk lhs (bumpMethodCallHash rhs) pos false rfl e h hl.2
       simp only [exprInv, hh, hp, Bool.and_self])

-- finishMapLiteral builds an invariant-satisfying map literal
theorem finishMapLiteral_inv (entries : List ((String × Position) × Expr)) (pos : Position)
    (input : Input) (stack : Stack) (hs : ∀ kv ∈ entries, exprInv kv.2 = true) :
    ∀ out, finishMapLiteral entries pos input stack = .ok out → exprInv out.1 = true := by
  intro out h
  unfold finishMapLiteral at h
  split at h
  · exact absurd h (by simp)
  · injection h with h
    subst h
    simp only [exprInv, exprHashOk, exprPropOk, Bool.and_eq_true,
      mapEntriesHashOk_iff, mapEntriesPropOk_iff]
    constructor
    · intro kv hkv
      have := hs kv hkv
      simp only [exprInv, Bool.and_eq_true] at this
      exact this.1
    · intro kv hkv
      have := hs kv hkv
      simp only [exprInv, Bool.and_eq_true] at this
      exact this.2

-- every statement parseExportLoop returns is an Export, hence invariant
theorem parseExportLoop_inv : ∀ (fuel : Nat) (input : Input)
    (exports : List ((String × Position) × Option (String × Position)))
    (out : Stmt × Input), parseExportLoop fuel input exports = .ok out →
    stmtInv out.1 = true := by
  intro fuel
  induction fuel with
  | zero =>
    intro input exports out h
    exact Except.noConfusion h
  | succ f ih =>
    intro input exports out h
    simp only [parseExportLoop] at h
    split at h
    case _ s idPos input2 =>
      split at h
      · exact Except.noConfusion h
      · split at h
        · exact ih _ _ _ h
        · exact Except.noConfusion h
        · split at h
          · exact Except.noConfusion h
          · injection h with h
            subst h
            rfl
    case _ => exact Except.noConfusion h
    case _ => exact Except.noConfusion h

-- insertFnMap preserves the per-definition body invariant
theorem insertFnMap_inv (m : List (FnHash × FnDef)) (k : FnHash) (v : FnDef)
    (hm : ∀ kv ∈ m, stmtInv kv.2.body = true) (hv : stmtInv v.body = true) :
    ∀ kv ∈ insertFnMap m k v, stmtInv kv.2.body = true := by
  intro kv hkv
  unfold insertFnMap at hkv
  split at hkv
  · rw [List.mem_map] at hkv
    obtain ⟨kv0, hkv0, heq⟩ := hkv
    by_cases hk : kv0.1 == k
    · simp only [hk, if_pos] at heq
      subst heq
      exact hv
    · simp only [hk, Bool.false_eq_true, if_neg, if_false] at heq
      subst heq
      exact hm kv0 hkv0
  · rw [List.mem_append] at hkv
    rcases hkv with hkv | hkv
    · exact hm kv hkv
    · simp only [List.mem_singleton] at hkv
      subst hkv
      exact hv


-- appending one invariant-satisfying element to an invariant list
theorem exprListInvAppend (l : List Expr) (a : Expr)
    (hl : ∀ e ∈ l, exprInv e = true) (ha : exprInv a = true) :
    ∀ e ∈ l ++ [a], exprInv e = true := by
  intro e he
  rcases List.mem_append.mp he with he | he
  · exact hl e he
  · rw [List.mem_singleton] at he
    subst he
    exact ha

theorem mapEntriesInvAppend (l : List ((String × Position) × Expr))
    (kv : (String × Position) × Expr)
    (hl : ∀ e ∈ l, exprInv e.2 = true) (ha : exprInv kv.2 = true) :
    ∀ e ∈ l ++ [kv], exprInv e.2 = true := by
  intro e he
  rcases List.mem_append.mp he with he | he
  · exact hl e he
  · rw [List.mem_singleton] at he
    subst he
    exact ha

theorem stmtListInvAppend (l : List Stmt) (a : Stmt)
    (hl : ∀ s ∈ l, stmtInv s = true) (ha : stmtInv a = true) :
    ∀ s ∈ l ++ [a], stmtInv s = true := by
  intro s hs
  rcases List.mem_append.mp hs with hs | hs
  · exact hl s hs
  · rw [List.mem_singleton] at hs
    subst hs
    exact ha

theorem parseExport_inv (fuel : Nat) (input : Input) (out : Stmt × Input)
    (h : parseExport fuel input = .ok out) : stmtInv out.1 = true := by
  unfold parseExport at h
  exact parseExportLoop_inv _ _ _ _ h

set_option maxHeartbeats 2000000 in
theorem parserInv (cfg : Config) : ∀ fuel : Nat,
    (∀ input stack allowStmt, ExprResInv (parseExpr cfg fuel input stack allowStmt)) ∧
    (∀ input stack pos allowStmt, ExprResInv (parseParenExpr cfg fuel input stack pos allowStmt)) ∧
    (∀ input stack id modules bgn allowStmt,
      ExprResInv (parseCallExpr cfg fuel input stack id modules bgn allowStmt)) ∧
    (∀ input stack id modules bgn args allowStmt, (∀ a ∈ args, exprInv a = true) →
      ExprResInv (parseCallArgsLoop cfg fuel input stack id modules bgn args allowStmt)) ∧
    (∀ input stack lhs pos allowStmt, exprInv lhs = true →
      ExprResInv (parseIndexChain cfg fuel input stack lhs pos allowStmt)) ∧
    (∀ input stack pos allowStmt, ExprResInv (parseArrayLiteral cfg fuel input stack pos allowStmt)) ∧
    (∀ input stack arr pos allowStmt, (∀ a ∈ arr, exprInv a = true) →
      ExprResInv (parseArrayLoop cfg fuel input stack arr pos allowStmt)) ∧
    (∀ input stack pos allowStmt, ExprResInv (parseMapLiteral cfg fuel input stack pos allowStmt)) ∧
    (∀ input stack entries pos allowStmt, (∀ kv ∈ entries, exprInv kv.2 = true) →
      ExprResInv (parseMapLoop cfg fuel input stack entries pos allowStmt)) ∧
    (∀ input stack allowStmt, ExprResInv (parsePrimary cfg fuel input stack allowStmt)) ∧
    (∀ input stack root allowStmt, exprInv root = true →
      ExprResInv (parsePrimaryTail cfg fuel input stack root allowStmt)) ∧
    (∀ input stack allowStmt, ExprResInv (parseUnary cfg fuel input stack allowStmt)) ∧
    (∀ prec lhs input stack allowStmt, exprInv lhs = true →
      ExprResInv (parseBinaryOp cfg fuel prec lhs input stack allowStmt)) ∧
    (∀ input stack lhs allowStmt, exprInv lhs = true →
      ExprResInv (parseOpAssignmentStmt cfg fuel input stack lhs allowStmt)) ∧
    (∀ input stack breakable allowStmt, StmtResInv (parseIf cfg fuel input stack breakable allowStmt)) ∧
    (∀ input stack allowStmt, StmtResInv (parseWhile cfg fuel input stack allowStmt)) ∧
    (∀ input stack allowStmt, StmtResInv (parseLoop cfg fuel input stack allowStmt)) ∧
    (∀ input stack allowStmt, StmtResInv (parseFor cfg fuel input stack allowStmt)) ∧
    (∀ input stack varType allowStmt, StmtResInv (parseLet cfg fuel input stack varType allowStmt)) ∧
    (∀ input stack allowStmt, StmtResInv (parseImport cfg fuel input stack allowStmt)) ∧
    (∀ input stack breakable allowStmt, StmtResInv (parseBlock cfg fuel input stack breakable allowStmt)) ∧
    (∀ input stack stmts pos prevLen breakable allowStmt, (∀ s ∈ stmts, stmtInv s = true) →
      StmtResInv (parseBlockLoop cfg fuel input stack stmts pos prevLen breakable allowStmt)) ∧
    (∀ input stack allowStmt, StmtResInv (parseExprStmt cfg fuel input stack allowStmt)) ∧
    (∀ input stack breakable isGlobal allowStmt,
      StmtResInv (parseStmt cfg fuel input stack breakable isGlobal allowStmt)) ∧
    (∀ input stack rt pos allowStmt, StmtResInv (parseReturnBody cfg fuel input stack rt pos allowStmt)) ∧
    (∀ input stack access allowStmt, FnResInv (parseFn cfg fuel input stack access allowStmt)) ∧
    (∀ input stack stmts fns, (∀ s ∈ stmts, stmtInv s = true) →
      (∀ kv ∈ fns, stmtInv kv.2.body = true) →
      GlobResInv (parseGlobalLevelLoop cfg fuel input stack stmts fns)) ∧
    (∀ input, GlobResInv (parseGlobalLevel cfg fuel input)) := by
  intro fuel
  induction fuel with
  | zero =>
    refine ⟨?_, ?_, ?_, ?_, ?_, ?_, ?_, ?_, ?_, ?_, ?_, ?_, ?_, ?_, ?_, ?_, ?_, ?_, ?_, ?_,
      ?_, ?_, ?_, ?_, ?_, ?_, ?_, ?_⟩ <;>
      (intros
       intro out h
       exact Except.noConfusion h)
  | succ fuel ih =>
    obtain ⟨ihExpr, ihParen, ihCall, ihCallLoop, ihIdx, ihArrLit, ihArrLoop, ihMapLit,
      ihMapLoop, ihPrim, ihPrimTail, ihUnary, ihBin, ihOpAsn, ihIf, ihWhile, ihLoop, ihFor,
      ihLet, ihImport, ihBlock, ihBlockLoop, ihExprStmt, ihStmt, ihRet, ihFn, ihGlobLoop,
      ihGlob⟩ := ih
    refine ⟨?_, ?_, ?_, ?_, ?_, ?_, ?_, ?_, ?_, ?_, ?_, ?_, ?_, ?_, ?_, ?_, ?_, ?_, ?_, ?_,
      ?_, ?_, ?_, ?_, ?_, ?_, ?_, ?_⟩
    -- parseExpr
    · intro input stack allowStmt out h
      simp only [parseExpr] at h
      split at h
      · exact Except.noConfusion h
      · rename_i lhs heq
        exact ihBin 1 _ _ _ allowStmt (ihUnary input stack allowStmt _ heq) out h
    -- parseParenExpr
    · intro input stack pos allowStmt out h
      simp only [parseParenExpr] at h
      split at h
      · injection h with h
        subst h
        rfl
      · split at h
        · exact Except.noConfusion h
        · rename_i heq
          split at h
          · injection h with h
            subst h
            have hres := ihExpr _ _ _ _ heq
            exact hres
          · exact Except.noConfusion h
          · exact Except.noConfusion h
    -- parseCallExpr
    · intro input stack id modules bgn allowStmt out h
      simp only [parseCallExpr] at h
      split at h
      · exact Except.noConfusion h
      · exact Except.noConfusion h
      · injection h with h
        subst h
        simp only [exprInv, exprHashOk, exprPropOk, fnCallHashOk, exprListHashOk,
          exprListPropOk, Bool.and_eq_true, Bool.or_eq_true, List.length_nil]
        exact ⟨⟨Or.inl (beq_iff_eq.mpr (callHashAndModules_spec stack modules id 0)),
          trivial⟩, trivial⟩
      · exact ihCallLoop _ _ _ _ _ _ _ (fun a ha => absurd ha (List.not_mem_nil a)) out h
    -- parseCallArgsLoop
    · intro input stack id modules bgn args allowStmt hargs out h
      simp only [parseCallArgsLoop] at h
      split at h
      · exact Except.noConfusion h
      · rename_i arg input2 stack2 heq
        have harg := ihExpr _ _ _ _ heq
        have hargs2 : ∀ a ∈ args ++ [arg], exprInv a = true := by
          intro a ha
          rcases List.mem_append.mp ha with ha | ha
          · exact hargs a ha
          · rw [List.mem_singleton] at ha
            subst ha
            exact harg
        split at h
        · injection h with h
          subst h
          simp only [exprInv, exprHashOk, exprPropOk, fnCallHashOk, Bool.and_eq_true,
            Bool.or_eq_true, exprListHashOk_iff, exprListPropOk_iff]
          refine ⟨⟨Or.inl (beq_iff_eq.mpr (callHashAndModules_spec stack2 modules id _)),
            ?_⟩, ?_⟩
          · intro a ha
            have := hargs2 a ha
            simp only [exprInv, Bool.and_eq_true] at this
            exact this.1
          · intro a ha
            have := hargs2 a ha
            simp only [exprInv, Bool.and_eq_true] at this
            exact this.2
        · exact ihCallLoop _ _ _ _ _ _ _ hargs2 out h
        · exact Except.noConfusion h
        · exact Except.noConfusion h
        · exact Except.noConfusion h
    -- parseIndexChain
    · intro input stack lhs pos allowStmt hlhs out h
      simp only [parseIndexChain] at h
      split at h
      · exact Except.noConfusion h
      · rename_i idxExpr input2 stack2 heq
        have hidx := ihExpr _ _ _ _ heq
        split at h
        · exact Except.noConfusion h
        · split at h
          · split at h
            · split at h
              · exact Except.noConfusion h
              · rename_i heq2
                have hidx2 := ihIdx _ _ _ _ _ hidx _ heq2
                injection h with h
                subst h
                simp only [exprInv, exprHashOk, exprPropOk, Bool.and_eq_true] at hlhs hidx2 ⊢
                exact ⟨⟨hlhs.1, hidx2.1⟩, hlhs.2⟩
            · injection h with h
              subst h
              simp only [exprInv, exprHashOk, exprPropOk, Bool.and_eq_true] at hlhs hidx ⊢
              exact ⟨⟨hlhs.1, hidx.1⟩, hlhs.2⟩
          · exact Except.noConfusion h
          · exact Except.noConfusion h
    -- parseArrayLiteral
    · intro input stack pos allowStmt out h
      simp only [parseArrayLiteral] at h
      split at h
      · injection h with h
        subst h
        rfl
      · exact ihArrLoop _ _ _ _ _ (fun a ha => absurd ha (List.not_mem_nil a)) out h
    -- parseArrayLoop
    · intro input stack arr pos allowStmt harr out h
      simp only [parseArrayLoop] at h
      split at h
      · injection h with h
        subst h
        simp only [exprInv, exprHashOk, exprPropOk, Bool.and_eq_true,
          exprListHashOk_iff, exprListPropOk_iff]
        constructor
        · intro a ha
          have := harr a ha
          simp only [exprInv, Bool.and_eq_true] at this
          exact this.1
        · intro a ha
          have := harr a ha
          simp only [exprInv, Bool.and_eq_true] at this
          exact this.2
      · split at h
        · exact Except.noConfusion h
        · rename_i item input2 stack2 heq
          have hitem := ihExpr _ _ _ _ heq
          have harr2 : ∀ a ∈ arr ++ [item], exprInv a = true := by
            intro a ha
            rcases List.mem_append.mp ha with ha | ha
            · exact harr a ha
            · rw [List.mem_singleton] at ha
              subst ha
              exact hitem
          split at h
          · exact ihArrLoop _ _ _ _ _ harr2 out h
          · injection h with h
            subst h
            simp only [exprInv, exprHashOk, exprPropOk, Bool.and_eq_true,
              exprListHashOk_iff, exprListPropOk_iff]
            constructor
            · intro a ha
              have := harr2 a ha
              simp only [exprInv, Bool.and_eq_true] at this
              exact this.1
            · intro a ha
              have := harr2 a ha
              simp only [exprInv, Bool.and_eq_true] at this
              exact this.2
          · exact Except.noConfusion h
          · exact Except.noConfusion h
          · exact Except.noConfusion h
    -- parseMapLiteral
    · intro input stack pos allowStmt out h
      simp only [parseMapLiteral] at h
      split at h
      · exact finishMapLiteral_inv _ _ _ _ (fun kv hkv => absurd hkv (List.not_mem_nil kv)) out h
      · exact ihMapLoop _ _ _ _ _ (fun kv hkv => absurd hkv (List.not_mem_nil kv)) out h
    -- parseMapLoop
    · intro input stack entries pos allowStmt hentries out h
      simp only [parseMapLoop] at h
      split at h
      · exact finishMapLiteral_inv _ _ _ _ hentries out h
      · split at h
        · exact Except.noConfusion h
        · split at h
          · exact Except.noConfusion h
          · split at h
            · exact Except.noConfusion h
            · rename_i expr input4 stack2 heq
              have hexpr : exprInv expr = true := ihExpr _ _ _ _ heq
              split at h
              · exact ihMapLoop _ _ _ _ _ (mapEntriesInvAppend _ _ hentries hexpr) out h
              · exact finishMapLiteral_inv _ _ _ _ (mapEntriesInvAppend _ _ hentries hexpr) out h
              · exact Except.noConfusion h
              · exact Except.noConfusion h
              · exact Except.noConfusion h
    -- parsePrimary
    · intro input stack allowStmt out h
      simp only [parsePrimary] at h
      split at h
      · split at h
        · exact Except.noConfusion h
        · rename_i heq
          injection h with h
          subst h
          have hblock := ihBlock _ _ _ _ _ heq
          simp only [stmtInv, Bool.and_eq_true] at hblock
          simp only [exprInv, exprHashOk, exprPropOk, Bool.and_eq_true]
          exact hblock
      · split at h
        · exact Except.noConfusion h
        · split at h
          · exact Except.noConfusion h
          · rename_i root i2 s2 heqRoot
            have hroot : exprInv root = true := by
              split at heqRoot <;>
                first
                | exact Except.noConfusion heqRoot
                | (have hres := ihParen _ _ _ _ _ heqRoot
                   exact hres)
                | (have hres := ihArrLit _ _ _ _ _ heqRoot
                   exact hres)
                | (have hres := ihMapLit _ _ _ _ _ heqRoot
                   exact hres)
                | (injection heqRoot with heqRoot
                   obtain rfl := (congrArg Prod.fst heqRoot).symm
                   rfl)
            have hres := ihPrimTail _ _ _ _ hroot out h
            exact hres
    -- parsePrimaryTail
    · intro input stack root allowStmt hroot out h
      simp only [parsePrimaryTail] at h
      split at h
      · injection h with h
        subst h
        simp only [exprInv, Bool.and_eq_true, exprHashOk_fixRoot, exprPropOk_fixRoot] at hroot ⊢
        exact hroot
      · split at h
        · split at h
          · exact Except.noConfusion h
          · rename_i heq
            have hcall := ihCall _ _ _ _ _ _ _ heq
            have hcall2 : exprInv _ = true := hcall
            have hres := ihPrimTail _ _ _ _ hcall2 out h
            exact hres
        · split at h
          · refine ihPrimTail _ _ _ _ ?_ out h
            rfl
          · exact Except.noConfusion h
        · split at h
          · exact Except.noConfusion h
          · rename_i heq
            have hidxr := ihIdx _ _ _ _ _ hroot _ heq
            have hres := ihPrimTail _ _ _ _ hidxr out h
            exact hres
        · exact Except.noConfusion h
    -- parseUnary
    · intro input stack allowStmt out h
      simp only [parseUnary] at h
      split at h
      · split at h
        · exact Except.noConfusion h
        · rename_i heq
          injection h with h
          subst h
          have hif := ihIf _ _ _ _ _ heq
          simp only [stmtInv, Bool.and_eq_true] at hif
          simp only [exprInv, exprHashOk, exprPropOk, Bool.and_eq_true]
          exact hif
      · split at h
        · exact Except.noConfusion h
        · split at h
          · injection h with h
            subst h
            rfl
          · split at h
            · exact Except.noConfusion h
            · injection h with h
              subst h
              rfl
        · injection h with h
          subst h
          rfl
        · rename_i expr input2 stack2 hne1 hne2 heq
          injection h with h
          subst h
          have hsub := ihUnary _ _ _ _ heq
          simp only [exprInv, Bool.and_eq_true] at hsub
          simp only [exprInv, exprHashOk, exprPropOk, fnCallHashOk, exprListHashOk,
            exprListPropOk, modNames, List.length_cons, List.length_nil, beq_self_eq_true,
            hsub.1, hsub.2, Bool.and_eq_true, Bool.or_eq_true, Bool.and_self, Bool.true_and,
            Bool.and_true, and_true, true_and, and_self, or_true, true_or, Nat.reduceAdd]
      · exact ihUnary _ _ _ out h
      · split at h
        · exact Except.noConfusion h
        · rename_i expr input2 stack2 heq
          injection h with h
          subst h
          have hsub := ihPrim _ _ _ _ heq
          simp only [exprInv, Bool.and_eq_true] at hsub
          simp only [exprInv, exprHashOk, exprPropOk, fnCallHashOk, exprListHashOk,
            exprListPropOk, modNames, List.length_cons, List.length_nil, beq_self_eq_true,
            hsub.1, hsub.2, Bool.and_eq_true, Bool.or_eq_true, Bool.and_self, Bool.true_and,
            Bool.and_true, and_true, true_and, and_self, or_true, true_or, Nat.reduceAdd]
      · exact Except.noConfusion h
      · exact ihPrim _ _ _ out h
    -- parseBinaryOp
    · intro prec lhs input stack allowStmt hlhs out h
      simp only [parseBinaryOp] at h
      split at h
      · injection h with h
        subst h
        exact hlhs
      · split at h
        · exact Except.noConfusion h
        · rename_i rhs1 input2 stack2 heq1
          have hrhs1 : exprInv rhs1 = true := ihUnary _ _ _ _ heq1
          split at h
          · exact Except.noConfusion h
          · rename_i rhs2 input3 stack3 heq2
            have hrhs2 : exprInv rhs2 = true := by
              split at heq2
              · exact ihBin _ _ _ _ _ hrhs1 _ heq2
              · injection heq2 with heq2
                obtain rfl := (congrArg Prod.fst heq2).symm
                exact hrhs1
            split at h
            · exact Except.noConfusion h
            · rename_i newLhs heq3
              have hnew := makeBinaryOpNode_inv _ _ _ _ hlhs hrhs2 _ heq3
              exact ihBin _ _ _ _ _ hnew out h
    -- parseOpAssignmentStmt
    · intro input stack lhs allowStmt hlhs out h
      simp only [parseOpAssignmentStmt] at h
      split at h
      · split at h
        · exact Except.noConfusion h
        · rename_i rhs input2 stack2 heq
          have hrhs : exprInv rhs = true := ihExpr _ _ _ _ heq
          split at h
          · exact Except.noConfusion h
          · rename_i e2 heq2
            injection h with h
            subst h
            obtain rfl := make_assignment_stmt_ok _ _ _ _ _ heq2
            simp only [exprInv, Bool.and_eq_true] at hlhs hrhs
            simp only [exprInv, exprHashOk, exprPropOk, hlhs.1, hlhs.2, hrhs.1, hrhs.2,
              Bool.and_self, Bool.and_true, Bool.true_and]
      · split at h
        · injection h with h
          subst h
          exact hlhs
        · split at h
          · exact Except.noConfusion h
          · rename_i rhs input2 stack2 heq
            have hrhs : exprInv rhs = true := ihExpr _ _ _ _ heq
            split at h
            · exact Except.noConfusion h
            · rename_i e2 heq2
              injection h with h
              subst h
              obtain rfl := make_assignment_stmt_ok _ _ _ _ _ heq2
              simp only [exprInv, Bool.and_eq_true] at hlhs hrhs
              simp only [exprInv, exprHashOk, exprPropOk, fnCallHashOk, exprListHashOk,
                exprListPropOk, modNames, List.length_cons, List.length_nil, beq_self_eq_true,
                hlhs.1, hlhs.2, hrhs.1, hrhs.2, Bool.and_eq_true, Bool.or_eq_true,
                Bool.and_self, Bool.true_and, Bool.and_true, and_true, true_and, and_self,
                or_true, true_or, Nat.reduceAdd]
    -- parseIf
    · intro input stack breakable allowStmt out h
      simp only [parseIf] at h
      split at h
      · exact Except.noConfusion h
      · split at h
        · exact Except.noConfusion h
        · rename_i guard input2 stack2 heq1
          have hguard := ihExpr _ _ _ _ heq1
          simp only [exprInv, Bool.and_eq_true] at hguard
          split at h
          · exact Except.noConfusion h
          · split at h
            · exact Except.noConfusion h
            · rename_i ifBody input3 stack3 heq2
              have hif := ihBlock _ _ _ _ _ heq2
              simp only [stmtInv, Bool.and_eq_true] at hif
              split at h
              · split at h
                · exact Except.noConfusion h
                · rename_i elseBody input4 stack4 heq3
                  have helse : stmtInv elseBody = true := by
                    split at heq3
                    · exact ihIf _ _ _ _ _ heq3
                    · exact ihBlock _ _ _ _ _ heq3
                  simp only [stmtInv, Bool.and_eq_true] at helse
                  injection h with h
                  subst h
                  simp only [stmtInv, stmtHashOk, stmtPropOk, optStmtHashOk, optStmtPropOk,
                    hguard.1, hguard.2, hif.1, hif.2, helse.1, helse.2, Bool.and_self,
                    Bool.and_true, Bool.true_and]
              · injection h with h
                subst h
                simp only [stmtInv, stmtHashOk, stmtPropOk, optStmtHashOk, optStmtPropOk,
                  hguard.1, hguard.2, hif.1, hif.2, Bool.and_self, Bool.and_true,
                  Bool.true_and]
    -- parseWhile
    · intro input stack allowStmt out h
      simp only [parseWhile] at h
      split at h
      · exact Except.noConfusion h
      · split at h
        · exact Except.noConfusion h
        · rename_i guard input2 stack2 heq1
          have hguard := ihExpr _ _ _ _ heq1
          simp only [exprInv, Bool.and_eq_true] at hguard
          split at h
          · exact Except.noConfusion h
          · split at h
            · exact Except.noConfusion h
            · rename_i body input3 stack3 heq2
              have hbody := ihBlock _ _ _ _ _ heq2
              simp only [stmtInv, Bool.and_eq_true] at hbody
              injection h with h
              subst h
              simp only [stmtInv, stmtHashOk, stmtPropOk, hguard.1, hguard.2, hbody.1,
                hbody.2, Bool.and_self, Bool.and_true, Bool.true_and]
    -- parseLoop
    · intro input stack allowStmt out h
      simp only [parseLoop] at h
      split at h
      · exact Except.noConfusion h
      · rename_i body input2 stack2 heq
        have hbody := ihBlock _ _ _ _ _ heq
        injection h with h
        subst h
        simp only [stmtInv, Bool.and_eq_true] at hbody
        simp only [stmtInv, stmtHashOk, stmtPropOk, hbody.1, hbody.2, Bool.and_self]
    -- parseFor
    · intro input stack allowStmt out h
      simp only [parseFor] at h
      split at h
      · exact Except.noConfusion h
      · split at h
        · exact Except.noConfusion h
        · split at h
          · exact Except.noConfusion h
          · split at h
            · exact Except.noConfusion h
            · rename_i expr input2 stack2 heq1
              have hexpr := ihExpr _ _ _ _ heq1
              simp only [exprInv, Bool.and_eq_true] at hexpr
              split at h
              · exact Except.noConfusion h
              · rename_i body input3 stack3 heq2
                have hbody := ihBlock _ _ _ _ _ heq2
                simp only [stmtInv, Bool.and_eq_true] at hbody
                injection h with h
                subst h
                simp only [stmtInv, stmtHashOk, stmtPropOk, hexpr.1, hexpr.2, hbody.1,
                  hbody.2, Bool.and_self, Bool.and_true, Bool.true_and]
    -- parseLet
    · intro input stack varType allowStmt out h
      simp only [parseLet] at h
      split at h
      · exact Except.noConfusion h
      · split at h
        · split at h
          · exact Except.noConfusion h
          · rename_i initv input2 stack2 heq
            have hinit := ihExpr _ _ _ _ heq
            simp only [exprInv, Bool.and_eq_true] at hinit
            split at h
            · injection h with h
              subst h
              simp only [stmtInv, stmtHashOk, stmtPropOk, optExprHashOk, optExprPropOk,
                hinit.1, hinit.2, Bool.and_self]
            · split at h
              · injection h with h
                subst h
                simp only [stmtInv, stmtHashOk, stmtPropOk, hinit.1, hinit.2, Bool.and_self]
              · exact Except.noConfusion h
            · exact Except.noConfusion h
        · split at h
          · injection h with h
            subst h
            rfl
          · injection h with h
            subst h
            rfl
          · exact Except.noConfusion h
    -- parseImport
    · intro input stack allowStmt out h
      simp only [parseImport] at h
      split at h
      · exact Except.noConfusion h
      · rename_i expr input2 stack2 heq
        have hexpr := ihExpr _ _ _ _ heq
        simp only [exprInv, Bool.and_eq_true] at hexpr
        split at h
        · exact Except.noConfusion h
        · split at h
          · injection h with h
            subst h
            simp only [stmtInv, stmtHashOk, stmtPropOk, hexpr.1, hexpr.2, Bool.and_self]
          · exact Except.noConfusion h
          · exact Except.noConfusion h
    -- parseBlock
    · intro input stack breakable allowStmt out h
      simp only [parseBlock] at h
      split at h
      · exact ihBlockLoop _ _ _ _ _ _ _ (fun s hs => absurd hs (List.not_mem_nil s)) out h
      · exact Except.noConfusion h
      · exact Except.noConfusion h
    -- parseBlockLoop
    · intro input stack stmts pos prevLen breakable allowStmt hstmts out h
      simp only [parseBlockLoop] at h
      split at h
      · injection h with h
        subst h
        simp only [stmtInv, stmtHashOk, stmtPropOk, Bool.and_eq_true, stmtListHashOk_iff,
          stmtListPropOk_iff]
        constructor
        · intro s hs
          have := hstmts s hs
          simp only [stmtInv, Bool.and_eq_true] at this
          exact this.1
        · intro s hs
          have := hstmts s hs
          simp only [stmtInv, Bool.and_eq_true] at this
          exact this.2
      · split at h
        · exact Except.noConfusion h
        · rename_i stmt input2 stack2 heq
          have hstmt : stmtInv stmt = true := ihStmt _ _ _ _ _ _ heq
          split at h
          · injection h with h
            subst h
            have hall := stmtListInvAppend _ _ hstmts hstmt
            simp only [stmtInv, stmtHashOk, stmtPropOk, Bool.and_eq_true, stmtListHashOk_iff,
              stmtListPropOk_iff]
            constructor
            · intro s hs
              have := hall s hs
              simp only [stmtInv, Bool.and_eq_true] at this
              exact this.1
            · intro s hs
              have := hall s hs
              simp only [stmtInv, Bool.and_eq_true] at this
              exact this.2
          · split at h
            · exact ihBlockLoop _ _ _ _ _ _ _ (stmtListInvAppend _ _ hstmts hstmt) out h
            · exact ihBlockLoop _ _ _ _ _ _ _ (stmtListInvAppend _ _ hstmts hstmt) out h
          · split at h
            · exact ihBlockLoop _ _ _ _ _ _ _ (stmtListInvAppend _ _ hstmts hstmt) out h
            · split at h
              · exact Except.noConfusion h
              · exact Except.noConfusion h
    -- parseExprStmt
    · intro input stack allowStmt out h
      simp only [parseExprStmt] at h
      split at h
      · exact Except.noConfusion h
      · rename_i expr input2 stack2 heq
        have hexpr : exprInv expr = true := ihExpr _ _ _ _ heq
        split at h
        · exact Except.noConfusion h
        · rename_i e2 input3 stack3 heq2
          have he2 := ihOpAsn _ _ _ _ hexpr _ heq2
          injection h with h
          subst h
          simp only [exprInv, Bool.and_eq_true] at he2
          simp only [stmtInv, stmtHashOk, stmtPropOk, he2.1, he2.2, Bool.and_self]
    -- parseStmt
    · intro input stack breakable isGlobal allowStmt out h
      simp only [parseStmt] at h
      split at h
      · injection h with h
        subst h
        rfl
      · injection h with h
        subst h
        rfl
      · exact ihBlock _ _ _ _ out h
      · split at h
        · exact Except.noConfusion h
        · exact Except.noConfusion h
      · exact ihIf _ _ _ _ out h
      · exact ihWhile _ _ _ out h
      · exact ihLoop _ _ _ out h
      · exact ihFor _ _ _ out h
      · split at h
        · injection h with h
          subst h
          rfl
        · exact Except.noConfusion h
      · split at h
        · injection h with h
          subst h
          rfl
        · exact Except.noConfusion h
      · exact ihRet _ _ _ _ _ out h
      · exact ihRet _ _ _ _ _ out h
      · exact ihLet _ _ _ _ out h
      · exact ihLet _ _ _ _ out h
      · exact ihImport _ _ _ out h
      · split at h
        · exact Except.noConfusion h
        · split at h
          · exact Except.noConfusion h
          · rename_i stmt input2 heq
            injection h with h
            subst h
            exact parseExport_inv _ _ _ heq
      · exact ihExprStmt _ _ _ out h
    -- parseReturnBody
    · intro input stack rt pos allowStmt out h
      simp only [parseReturnBody] at h
      split at h
      · injection h with h
        subst h
        rfl
      · injection h with h
        subst h
        rfl
      · split at h
        · exact Except.noConfusion h
        · rename_i expr input2 stack2 heq
          have hexpr := ihExpr _ _ _ _ heq
          simp only [exprInv, Bool.and_eq_true] at hexpr
          injection h with h
          subst h
          simp only [stmtInv, stmtHashOk, stmtPropOk, optExprHashOk, optExprPropOk,
            hexpr.1, hexpr.2, Bool.and_self]
    -- parseFn
    · intro input stack access allowStmt out h
      simp only [parseFn] at h
      split at h
      · exact Except.noConfusion h
      · split at h
        · split at h
          · exact Except.noConfusion h
          · split at h
            · exact Except.noConfusion h
            · split at h
              · split at h
                · exact Except.noConfusion h
                · rename_i body input3 stack3 heq
                  have hbody := ihBlock _ _ _ _ _ heq
                  injection h with h
                  subst h
                  exact hbody
              · exact Except.noConfusion h
        · exact Except.noConfusion h
    -- parseGlobalLevelLoop
    · intro input stack stmts fns hstmts hfns out h
      simp only [parseGlobalLevelLoop] at h
      split at h
      · injection h with h
        subst h
        exact ⟨hstmts, hfns⟩
      · split at h
        · split at h
          · exact Except.noConfusion h
          · rename_i func input2 stack2 heq
            have hfunc : stmtInv func.body = true := ihFn _ _ _ _ _ heq
            exact ihGlobLoop _ _ _ _ hstmts (insertFnMap_inv _ _ _ hfns hfunc) out h
        · split at h
          · exact Except.noConfusion h
          · split at h
            · exact Except.noConfusion h
            · rename_i stmt input2 stack2 heq
              have hstmt : stmtInv stmt = true := ihStmt _ _ _ _ _ _ heq
              split at h
              · injection h with h
                subst h
                exact ⟨stmtListInvAppend _ _ hstmts hstmt, hfns⟩
              · split at h
                · exact ihGlobLoop _ _ _ _ (stmtListInvAppend _ _ hstmts hstmt) hfns out h
                · exact ihGlobLoop _ _ _ _ (stmtListInvAppend _ _ hstmts hstmt) hfns out h
              · split at h
                · exact ihGlobLoop _ _ _ _ (stmtListInvAppend _ _ hstmts hstmt) hfns out h
                · split at h
                  · exact Except.noConfusion h
                  · exact Except.noConfusion h
    -- parseGlobalLevel
    · intro input out h
      simp only [parseGlobalLevel] at h
      exact ihGlobLoop _ _ _ _ (fun s hs => absurd hs (List.not_mem_nil s))
        (fun kv hkv => absurd hkv (List.not_mem_nil kv)) out h

theorem parseGlobalLevel_inv (cfg : Config) (fuel : Nat) (input : Input)
    (out : List Stmt × List (FnHash × FnDef))
    (h : parseGlobalLevel cfg fuel input = .ok out) :
    (∀ s ∈ out.1, stmtInv s = true) ∧ (∀ kv ∈ out.2, stmtInv kv.2.body = true) :=
  (parserInv cfg fuel).2.2.2.2.2.2.2.2.2.2.2.2.2.2.2.2.2.2.2.2.2.2.2.2.2.2.2 input out h

theorem find?_filter_append {α : Type} (p q : α → Bool) (b : List α)
    (hcompat : ∀ f, p f = true → (q f = false ↔ (List.find? p b).isSome = true)) :
    ∀ a : List α, List.find? p (List.filter q a ++ b) =
      (List.find? p b).orElse (fun _ => List.find? p a) := by
  intro a
  induction a with
  | nil =>
    simp only [List.filter_nil, List.nil_append]
    cases List.find? p b <;> rfl
  | cons f rest ih =>
    cases hp : p f
    · have hneg : ¬ p f = true := by simp [hp]
      cases hq : q f
      · rw [List.filter_cons_of_neg (by simp [hq]), ih, List.find?_cons_of_neg rest hneg]
      · rw [List.filter_cons_of_pos hq, List.cons_append,
          List.find?_cons_of_neg _ hneg, List.find?_cons_of_neg rest hneg]
        exact ih
    · cases hq : q f
      · have hsome := (hcompat f hp).mp hq
        rw [List.filter_cons_of_neg (by simp [hq]), ih]
        obtain ⟨g, hg⟩ := Option.isSome_iff_exists.mp hsome
        rw [hg]
        rfl
      · have hnone : List.find? p b = Option.none := by
          cases hfb : List.find? p b with
          | none => rfl
          | some g =>
            have hq' := (hcompat f hp).mpr (by rw [hfb]; rfl)
            rw [hq] at hq'
            exact Bool.noConfusion hq'
        rw [List.filter_cons_of_pos hq, List.cons_append,
          List.find?_cons_of_pos _ hp, hnone, List.find?_cons_of_pos rest hp]
        rfl

theorem lookup_merge (a b : FunctionsLib) (name : String) (arity : Nat) :
    FunctionsLib.lookup (FunctionsLib.merge a b) name arity =
      ((FunctionsLib.lookup b name arity).orElse
        (fun _ => FunctionsLib.lookup a name arity)) := by
  simp only [FunctionsLib.lookup, FunctionsLib.merge]
  refine find?_filter_append _ _ b ?_ a
  intro f hpf
  simp only [Bool.and_eq_true, beq_iff_eq] at hpf
  constructor
  · intro hqf
    simp only [Bool.not_eq_false', List.any_eq_true] at hqf
    obtain ⟨g, hg, hkey⟩ := hqf
    simp only [Bool.and_eq_true, beq_iff_eq] at hkey
    simp only [List.find?_isSome]
    exact ⟨g, hg, by simp [hkey.1, hkey.2, hpf.1, hpf.2]⟩
  · intro hsome
    simp only [List.find?_isSome] at hsome
    obtain ⟨g, hg, hpg⟩ := hsome
    simp only [Bool.and_eq_true, beq_iff_eq] at hpg
    simp only [Bool.not_eq_false', List.any_eq_true]
    exact ⟨g, hg, by simp [hpg.1, hpg.2, hpf.1, hpf.2]⟩


/-- Claim C1 (corrected), counterexample to the claim as written: the
program `!x;` parses successfully, but its unary-`!` `FnCall` node caches
the hash of two type-id placeholders while holding one argument, so the
per-node equation `hash = calc_fn_hash(quals, name, args.len())`
(`stmtHashStrict`) fails on the parsed statement. -/
theorem fnCallHashStrictCex :
    (parseGlobalLevel defaultConfig 30 bangToks).map
      (fun out => List.all out.1 stmtHashStrict) = .ok false := by
  rfl

/-- Claim C1 (corrected), amended statement: for every `FnCall` node in
any statement or function body produced by a successful parse, the cached
hash equals `calc_fn_hash` of the node's qualifiers, name, and a
placeholder sequence whose length is the node's argument count, OR (for
unary-operator calls and method calls) of no qualifiers, the name, and
argument count plus one (`stmtHashOk`). -/
theorem fnCallHashInvariant (cfg : Config) (fuel : Nat) (input : Input)
    (out : List Stmt × List (FnHash × FnDef))
    (h : parseGlobalLevel cfg fuel input = .ok out) :
    (List.all out.1 stmtHashOk && List.all out.2 (fun kv => stmtHashOk kv.2.body)) = true := by
  obtain ⟨h1, h2⟩ := parseGlobalLevel_inv cfg fuel input out h
  simp only [Bool.and_eq_true, List.all_eq_true]
  refine ⟨fun s hs => ?_, fun kv hkv => ?_⟩
  · have hh := h1 s hs
    simp only [stmtInv, Bool.and_eq_true] at hh
    exact hh.1
  · have hh := h2 kv hkv
    simp only [stmtInv, Bool.and_eq_true] at hh
    exact hh.1

/-- Claim C1 witness: the amended invariant, instantiated on the parse of
`x.f(1) + g(2); fn h(a) { !a }` (a method call, operator calls, an
ordinary call and a unary call). -/
theorem fnCallHashInvariantWitness :
    parseGlobalLevel defaultConfig 60 fnWitToks = .ok fnWitOut ∧
    (List.all fnWitOut.1 stmtHashOk &&
      List.all fnWitOut.2 (fun kv => stmtHashOk kv.2.body)) = true :=
  ⟨rfl, fnCallHashInvariant defaultConfig 60 fnWitToks fnWitOut rfl⟩

/-- Claim C2: an assignment whose target is a variable resolved at parse
time to a `Constant` binding — or an index or dot chain rooted at such a
variable — is rejected by `make_assignment_stmt` with
`AssignmentToConstant` carrying the variable's name; and the program
`const x = 123; x = 42;` parses to exactly that error. -/
theorem assignmentToConstantRejected :
    (∀ (stack : Stack) (nm : String) (npos : Position) (mods : Option ModuleRef)
        (hash : FnHash) (i : Nat) (rhs : Expr) (pos : Position),
        (stack.entryAt (stack.len - i)).2 = ScopeEntryType.Constant →
        make_assignment_stmt stack (.Variable ((nm, npos), mods, hash, Option.some i)) rhs pos =
          .error ((PERR.AssignmentToConstant nm).intoErr npos)) ∧
    (∀ (stack : Stack) (nm : String) (npos : Position) (mods : Option ModuleRef)
        (hash : FnHash) (i : Nat) (idx rhs : Expr) (p2 pos : Position),
        (stack.entryAt (stack.len - i)).2 = ScopeEntryType.Constant →
        make_assignment_stmt stack
            (.Index (.Variable ((nm, npos), mods, hash, Option.some i), idx, p2)) rhs pos =
          .error ((PERR.AssignmentToConstant nm).intoErr npos)) ∧
    (∀ (stack : Stack) (nm : String) (npos : Position) (mods : Option ModuleRef)
        (hash : FnHash) (i : Nat) (dotRhs rhs : Expr) (p2 pos : Position),
        (stack.entryAt (stack.len - i)).2 = ScopeEntryType.Constant →
        make_assignment_stmt stack
            (.Dot (.Variable ((nm, npos), mods, hash, Option.some i), dotRhs, p2)) rhs pos =
          .error ((PERR.AssignmentToConstant nm).intoErr npos)) ∧
    parseGlobalLevel defaultConfig 50 c2Toks =
      .error ((PERR.AssignmentToConstant "x").intoErr pos0) := by
  refine ⟨?_, ?_, ?_, by rfl⟩
  · intro stack nm npos mods hash i rhs pos h
    simp [make_assignment_stmt, assignTargetCheck, h]
  · intro stack nm npos mods hash i idx rhs p2 pos h
    simp [make_assignment_stmt, assignTargetCheck, h]
  · intro stack nm npos mods hash i dotRhs rhs p2 pos h
    simp [make_assignment_stmt, assignTargetCheck, h]

/-- Claim C2 witness: the variable case instantiated on a one-entry
constant stack. -/
theorem assignmentToConstantWitness :
    ((Stack.entryAt [("x", ScopeEntryType.Constant)]
        (Stack.len [("x", ScopeEntryType.Constant)] - 1)).2 = ScopeEntryType.Constant) ∧
    make_assignment_stmt [("x", ScopeEntryType.Constant)]
        (.Variable (("x", pos0), Option.none, zeroHash, Option.some 1))
        (.IntegerConstant (42, pos0)) pos0 =
      .error ((PERR.AssignmentToConstant "x").intoErr pos0) :=
  ⟨rfl, assignmentToConstantRejected.1 [("x", ScopeEntryType.Constant)] "x" pos0 Option.none
    zeroHash 1 (.IntegerConstant (42, pos0)) pos0 rfl⟩

/-- Claim C3 (corrected), counterexample to the claim as written: the
program `a.b.c;` parses successfully into
`Dot(Variable a, Dot(Property b, Property c))`, where `Property b` is the
LEFT child of the inner `Dot`, so "every `Property` is the right child of
a `Dot` or `Index`" (`stmtPropStrict`) fails on the parsed statement. -/
theorem propertyPlacementStrictCex :
    (parseGlobalLevel defaultConfig 30 dotToks).map
      (fun out => List.all out.1 stmtPropStrict) = .ok false := by
  rfl

/-- Claim C3 (corrected), amended statement: in every AST produced by a
successful parse, a `Property` node occurs only inside the right-hand
subtree of a `Dot` or `Index` node (not necessarily as the immediate
right child: in `a.b.c` the node `Property b` sits as the left child of
an inner `Dot` that is itself the right child of the outer `Dot`). -/
theorem propertyPlacementInvariant (cfg : Config) (fuel : Nat) (input : Input)
    (out : List Stmt × List (FnHash × FnDef))
    (h : parseGlobalLevel cfg fuel input = .ok out) :
    (List.all out.1 stmtPropOk && List.all out.2 (fun kv => stmtPropOk kv.2.body)) = true := by
  obtain ⟨h1, h2⟩ := parseGlobalLevel_inv cfg fuel input out h
  simp only [Bool.and_eq_true, List.all_eq_true]
  refine ⟨fun s hs => ?_, fun kv hkv => ?_⟩
  · have hh := h1 s hs
    simp only [stmtInv, Bool.and_eq_true] at hh
    exact hh.2
  · have hh := h2 kv hkv
    simp only [stmtInv, Bool.and_eq_true] at hh
    exact hh.2

/-- Claim C3 witness: the amended invariant instantiated on the parse of
`a.b.c;`. -/
theorem propertyPlacementWitness :
    parseGlobalLevel defaultConfig 30 dotToks = .ok dotWitOut ∧
    (List.all dotWitOut.1 stmtPropOk &&
      List.all dotWitOut.2 (fun kv => stmtPropOk kv.2.body)) = true :=
  ⟨rfl, propertyPlacementInvariant defaultConfig 30 dotToks dotWitOut rfl⟩

/-- Claim C4: `AST::merge` appends the right-hand statements after the
left-hand ones, and the merged function library resolves every
`(name, arity)` key to the right-hand library's definition when it has
one and to the left-hand library's otherwise (right-hand override).
Both inputs are read only: the Lean model is a pure function, mirroring
the source, which only clones out of `&self` and `&other`. -/
theorem astMergeSpec (a other : AST) :
    (AST.merge a other).statements = a.statements ++ other.statements ∧
    ∀ (name : String) (arity : Nat),
      FunctionsLib.lookup (AST.merge a other).fnLib name arity =
        ((FunctionsLib.lookup other.fnLib name arity).orElse
          (fun _ => FunctionsLib.lookup a.fnLib name arity)) := by
  constructor
  · simp only [AST.merge, AST.new]
    cases h1 : a.statements.isEmpty <;> cases h2 : other.statements.isEmpty <;>
      simp_all [List.isEmpty_iff]
  · intro name arity
    show FunctionsLib.lookup (FunctionsLib.merge a.fnLib other.fnLib) name arity = _
    exact lookup_merge a.fnLib other.fnLib name arity

/-- Claim C5: both registration adapters, invoked with an argument count
different from the declared arity, return
`ErrorFunctionArgsMismatch(name, expected, got, pos)` without invoking
the wrapped native (the natives `f` and `g` are arbitrary and unused in
the conclusion). -/
theorem argsMismatchRejected :
    ∀ (name : String) (params : List Nat) (f : List Rhai.Dynamic → Rhai.Dynamic)
      (g : List Rhai.Dynamic → Except EvalAltResult Rhai.Dynamic)
      (args : List Rhai.Dynamic) (pos : Position),
      args.length ≠ params.length →
      registerFnAdapter name params f args pos =
        .err (.ErrorFunctionArgsMismatch name params.length args.length pos) ∧
      registerResultFnAdapter name params g args pos =
        .err (.ErrorFunctionArgsMismatch name params.length args.length pos) := by
  intro name params f g args pos h
  constructor
  · unfold registerFnAdapter
    rw [if_pos h]
  · unfold registerResultFnAdapter
    rw [if_pos h]

/-- Claim C5 witness: a two-parameter function applied to one argument. -/
theorem argsMismatchWitness :
    [Rhai.Dynamic.boolean true].length ≠ [1, 2].length ∧
    registerFnAdapter "foo" [1, 2] (fun _ => Rhai.Dynamic.boolean false)
        [Rhai.Dynamic.boolean true] Position.none =
      .err (.ErrorFunctionArgsMismatch "foo" 2 1 Position.none) :=
  ⟨by decide, (argsMismatchRejected "foo" [1, 2] (fun _ => Rhai.Dynamic.boolean false)
    (fun _ => .ok (Rhai.Dynamic.boolean false)) [Rhai.Dynamic.boolean true] Position.none
    (by decide)).1⟩

/-- Claim C6 (code bug): a native registered with declared parameter type
id 1, called with the right argument count but a `bool` argument (type
id 0), PANICS instead of returning an error: the adapter's
`downcast_mut::<T>().unwrap()` unwraps a failed downcast, despite the
source comment "Downcast every element, return in case of a type
mismatch". -/
theorem typeMismatchPanics :
    registerFnAdapter "foo" [1] (fun _ => Rhai.Dynamic.boolean false)
      [Rhai.Dynamic.boolean true] Position.none = .panicked := by
  rfl

/-- Claim C7: unary minus applied to an integer literal folds the
negation into the literal; when `checked_neg` overflows (the literal is
`i64::MIN`), the result is the negated float literal when floats are
enabled, and a `MalformedNumber` (`BadInput`) parse error under
`no_float`. -/
theorem unaryMinusFolding (cfg : Config) :
    ∀ (f : Nat) (n : Int) (mp p : Position) (rest : Input) (stack : Stack) (allowStmt : Bool),
      parseUnary cfg (f + 4)
          ((Token.UnaryMinus, mp) :: (Token.IntegerConstant n, p) :: rest) stack allowStmt =
        match checkedNeg n with
        | Option.some i => .ok (.IntegerConstant (i, p), rest, stack)
        | Option.none =>
          if cfg.noFloat then
            .error ((PERR.BadInput
              (LexError.malformedNumber ("-" ++ toString n)).toMessage).intoErr p)
          else .ok (.FloatConstant (-(intToFloat n), p), rest, stack) := by
  intro f n mp p rest stack allowStmt
  rfl

/-- Claim C8: inside `parse_index_chain`, an index expression that is a
negative integer literal constant is rejected with `MalformedIndexExpr`
at the literal's position, for ANY indexed expression `lhs`. -/
theorem negativeIndexRejected (cfg : Config) :
    ∀ (fuel : Nat) (input rest : Input) (stack stack2 : Stack) (lhs : Expr)
      (pos p : Position) (n : Int) (allowStmt : Bool),
      n < 0 →
      parseExpr cfg fuel input stack allowStmt = .ok (.IntegerConstant (n, p), rest, stack2) →
      parseIndexChain cfg (fuel + 1) input stack lhs pos allowStmt =
        .error ((PERR.MalformedIndexExpr
          ("Array access expects non-negative index: " ++ toString n ++ " < 0")).intoErr p) := by
  intro fuel input rest stack stack2 lhs pos p n allowStmt hneg hparse
  simp [parseIndexChain, hparse, indexExprCheck, hneg]

/-- Claim C8 witness: indexing any expression by the literal `-1`. -/
theorem negativeIndexWitness :
    ((-1 : Int) < 0) ∧
    parseExpr defaultConfig 10 negIdxToks Stack.new true =
      .ok (.IntegerConstant (-1, pos0), [(Token.RightBracket, pos0), (Token.EOF, pos0)],
        Stack.new) ∧
    parseIndexChain defaultConfig 11 negIdxToks Stack.new
        (.Variable (("a", pos0), Option.none, zeroHash, Option.none)) pos0 true =
      .error ((PERR.MalformedIndexExpr
        ("Array access expects non-negative index: " ++ toString (-1 : Int) ++ " < 0")).intoErr
        pos0) :=
  ⟨by decide, rfl,
    negativeIndexRejected defaultConfig 10 negIdxToks
      [(Token.RightBracket, pos0), (Token.EOF, pos0)] Stack.new Stack.new
      (.Variable (("a", pos0), Option.none, zeroHash, Option.none)) pos0 pos0 (-1) true
      (by decide) rfl⟩

set_option maxRecDepth 8192 in
/-- Claim C9: whenever the global-level loop meets a `fn` definition, it
parses it with `parse_fn` against a FRESH `Stack::new()` — the current
global stack is not passed in — so offsets inside function bodies never
resolve to outer bindings; and concretely
`const x = 123; fn f() { x = 42; } x;` parses successfully, its function
body holding an assignment to the UNRESOLVED variable `x` (offset
`none`), not an `AssignmentToConstant` error. -/
theorem fnFreshStack :
    (∀ (cfg : Config) (fuel : Nat) (input : Input) (stack : Stack)
        (stmts : List Stmt) (fns : List (FnHash × FnDef)),
        (peekInput input).1 = Token.Fn →
        parseGlobalLevelLoop cfg (fuel + 1) input stack stmts fns =
          match parseFn cfg fuel input Stack.new FnAccess.Public true with
          | .error e => .error e
          | .ok (func, input2, _) =>
            parseGlobalLevelLoop cfg fuel input2 stack stmts
              (insertFnMap fns (calc_fn_hash [] func.name func.params.length) func)) ∧
    (parseGlobalLevel defaultConfig 60 constFnToks).map
        (fun out => out.2.map (fun kv => kv.2.body)) =
      .ok [Stmt.Block ([Stmt.Expr (.Assignment (.Variable (("x", pos0), Option.none, zeroHash,
        Option.none), .IntegerConstant (42, pos0), pos0))], pos0)] := by
  constructor
  · intro cfg fuel input stack stmts fns hpk
    obtain ⟨tp, hcase⟩ : ∃ tp, peekInput input = (Token.Fn, tp) :=
      ⟨(peekInput input).2, by rw [← hpk]⟩
    simp only [parseGlobalLevelLoop, hcase, matchToken, Token.isEOF]
    simp only [show (Token.Fn == Token.Private) = false from rfl, Bool.false_eq_true, if_false]
    rw [hcase]
  · rfl

/-- Claim C9 witness: the fresh-stack equation instantiated on a
nonempty global stack. -/
theorem fnFreshStackWitness :
    (peekInput [((Token.Fn : Token), pos0)]).1 = Token.Fn ∧
    parseGlobalLevelLoop defaultConfig 6 [(Token.Fn, pos0)]
        [("y", ScopeEntryType.Normal)] [] [] =
      match parseFn defaultConfig 5 [(Token.Fn, pos0)] Stack.new FnAccess.Public true with
      | .error e => .error e
      | .ok (func, input2, _) =>
        parseGlobalLevelLoop defaultConfig 5 input2 [("y", ScopeEntryType.Normal)] []
          (insertFnMap [] (calc_fn_hash [] func.name func.params.length) func) :=
  ⟨rfl, fnFreshStack.1 defaultConfig 5 [(Token.Fn, pos0)] [("y", ScopeEntryType.Normal)] [] []
    rfl⟩

/-- Claim C10: the registered timestamp `-` operator always succeeds (the
default build has floats enabled); its value is nonnegative exactly when
`ts1 ≥ ts2`, and swapping the operands negates it. The f64 seconds are
modelled as exact rationals; both branches of the source feed the same
nonnegative `Duration` to `as_secs_f64` and the f64 negation is exact, so
sign and antisymmetry transfer to the floating computation. -/
theorem timestampSubAntisymmetry :
    ∀ ts1 ts2 : Nat, ∃ q : Rat,
      timestampSub ts1 ts2 = .ok q ∧
      (0 ≤ q ↔ ts2 ≤ ts1) ∧
      timestampSub ts2 ts1 = .ok (-q) := by
  intro ts1 ts2
  by_cases h : ts1 < ts2
  · refine ⟨-(durationAsSecs (ts2 - ts1)), ?_, ?_, ?_⟩
    · simp [timestampSub, h]
    · have hpos : (0 : Rat) < durationAsSecs (ts2 - ts1) := by
        unfold durationAsSecs
        apply div_pos
        · exact_mod_cast Nat.sub_pos_of_lt h
        · norm_num
      constructor
      · intro hq
        exfalso
        linarith
      · intro hle
        omega
    · have h2 : ¬ ts2 < ts1 := by omega
      simp [timestampSub, h2]
  · refine ⟨durationAsSecs (ts1 - ts2), ?_, ?_, ?_⟩
    · simp [timestampSub, h]
    · have hnn : (0 : Rat) ≤ durationAsSecs (ts1 - ts2) := by
        unfold durationAsSecs
        positivity
      constructor
      · intro hq2
        omega
      · intro hle
        exact hnn
    · by_cases h2 : ts2 < ts1
      · simp [timestampSub, h2]
      · have he : ts1 = ts2 := by omega
        subst he
        simp [timestampSub, durationAsSecs]

end Rhai
